import Mathlib

/-!
Shallow embedding of the jmzkChain state store and ABI serializer.

Source files embedded:
- src/libraries/chain/token_database.cpp (savepoint stack, rollback,
  squash, persistence codec, key codec)
- src/libraries/chain/contracts/abi_serializer.cpp (schema-driven
  binary serializer)
- src/libraries/chain/include/evt/chain/token_database_cache.hpp
  (typed LRU read cache over the token database)

Machine bytes are modelled as natural numbers (values kept below 256 by
the encoders); byte strings are lists of naturals.  C++ exceptions and
assertion failures are modelled with an explicit error monad.
-/

set_option maxHeartbeats 1600000
set_option maxRecDepth 8000

abbrev Byte := Nat
abbrev Bytes := List Nat

/-- Association-list lookup: first entry with the given key. -/
def lookupA {κ α : Type} [DecidableEq κ] : List (κ × α) → κ → Option α
  | [], _ => none
  | (k, v) :: rest, q => if k = q then some v else lookupA rest q

/-- Association-list overwrite: replace the first entry with the key in
place, or append a new one (models an ordered-KV `Put`). -/
def insertA {κ α : Type} [DecidableEq κ] : List (κ × α) → κ → α → List (κ × α)
  | [], q, w => [(q, w)]
  | (k, v) :: rest, q, w => if k = q then (k, w) :: rest else (k, v) :: insertA rest q w

/-- Association-list removal of all entries with the key (models an
ordered-KV `Delete`). -/
def eraseA {κ α : Type} [DecidableEq κ] : List (κ × α) → κ → List (κ × α)
  | [], _ => []
  | (k, v) :: rest, q => if k = q then eraseA rest q else (k, v) :: eraseA rest q

/-- Helper for `packVarint`: structural recursion on a fuel bound that
dominates the value. -/
def packVarintGo : Nat → Nat → Bytes
  | 0, _ => []
  | f + 1, n => if n < 128 then [n] else (n % 128 + 128) :: packVarintGo f (n / 128)

/-- Modelled from the spec: byte strings in the persistence file are
LEB128-length-prefixed (`fc::raw` varint encoding, whose implementation
is outside src/).  Little-endian base-128 with continuation bit. -/
def packVarint (n : Nat) : Bytes :=
  packVarintGo (n + 1) n

/-- Modelled from the spec: LEB128 varint decoder, returning the value
and the unconsumed tail. -/
def unpackVarint : Bytes → Option (Nat × Bytes)
  | [] => none
  | b :: rest =>
    if b < 128 then some (b, rest)
    else
      match unpackVarint rest with
      | none => none
      | some (n, r) => some (n * 128 + (b - 128), r)

/-- Modelled from the spec: fixed-width little-endian integer encoding
(`fc::raw::pack` of an integral type, implementation outside src/). -/
def packLE : Nat → Nat → Bytes
  | 0, _ => []
  | w + 1, n => n % 256 :: packLE w (n / 256)

/-- Modelled from the spec: fixed-width little-endian integer decoder. -/
def unpackLE : Nat → Bytes → Option (Nat × Bytes)
  | 0, bs => some (0, bs)
  | _ + 1, [] => none
  | w + 1, b :: bs =>
    match unpackLE w bs with
    | none => none
    | some (n, r) => some (n * 256 + b, r)

/-! ## Token database: data model (token_database.cpp) -/

/-- Modelled from the spec: the `token_type` enumeration
(`asset=0, domain=1, token=2, group=3, suspend=4, lock=5, fungible=6,
prodvote=7, evtlink=8`); the defining header is not under src/. -/
inductive TokenType where
  | asset | domain | token | group | suspend | lock | fungible | prodvote | evtlink
deriving DecidableEq, Repr

/-- Numeric value of a `token_type` enumerator. -/
def tokenTypeIdx : TokenType → Nat
  | .asset => 0 | .domain => 1 | .token => 2 | .group => 3 | .suspend => 4
  | .lock => 5 | .fungible => 6 | .prodvote => 7 | .evtlink => 8

/-- Modelled from the spec: the `action_op` enumeration
(`add, update, put, delete`); the defining header is not under src/. -/
inductive ActionOp where
  | add | update | put | delete
deriving DecidableEq, Repr

/-- Numeric value of an `action_op` enumerator. -/
def actionOpIdx : ActionOp → Nat
  | .add => 0 | .update => 1 | .put => 2 | .delete => 3

/-- Modelled from the spec: `name128` is a 16-byte canonical name; its
byte encoding lives in a header outside src/.  Names are modelled as
raw byte lists (length 16 where a claim depends on the width). -/
abbrev Name128 := Bytes

/-- Modelled from the spec: the `action_key_prefixes` table assigns each
non-`token` type a fixed 16-byte canonical name (`.asset`, `.domain`,
...); the concrete `name128` bit packing is outside src/, so the
constants are modelled as distinct 16-byte strings tagged by the
enumerator value. -/
def actionKeyPfx (t : TokenType) : Name128 :=
  tokenTypeIdx t :: List.replicate 15 0

/-- Byte layout of `db_token_key`: the 16-byte prefix followed by the
16-byte key (the struct is `name128 prefix; name128 key` viewed as 32
raw bytes). -/
def dbTokenKey (pfx key : Name128) : Bytes :=
  pfx ++ key

/-- The size in bytes of `symbol` (`kSymbolSize = sizeof(symbol)`); the
symbol type is defined outside src/, modelled as an 8-byte descriptor. -/
def kSymbolSize : Nat := 8

/-- The size in bytes of a 33-byte address encoding
(`kPublicKeySize = sizeof(fc::ecc::public_key_shim)`). -/
def kPublicKeySize : Nat := 33

/-- Byte layout of `db_asset_key`: `memcpy(buf, &symbol, kSymbolSize)`
then `addr.to_bytes(buf + kSymbolSize, kPublicKeySize)` — the symbol
bytes first, then the 33 address bytes. -/
def dbAssetKey (symBytes addrBytes : Bytes) : Bytes :=
  symBytes ++ addrBytes

/-- Prefix-extractor length configured for the tokens column family in
`token_database_impl::open` (`NewFixedPrefixTransform(sizeof(name128))`). -/
def tokensPfxExtractorLen : Nat := 16

/-- Prefix-extractor length configured for the Assets column family in
`token_database_impl::open` (`NewFixedPrefixTransform(kPublicKeySize)`). -/
def assetsPfxExtractorLen : Nat := kPublicKeySize

/-- The two column families of the engine, each an ordered map from raw
key bytes to raw value bytes. -/
structure Engine where
  tokens : List (Bytes × Bytes)
  assets : List (Bytes × Bytes)
deriving DecidableEq, Repr

/-- A rocksdb snapshot is a read-only copy of the engine state at
acquisition time. -/
abbrev Snapshot := Engine

/-- Payload of a runtime action (`rt_token_key`, `rt_token_fullkey`,
`rt_asset_key`, `rt_token_keys`). -/
inductive RtData where
  | tokenKey (key : Name128)
  | tokenFullKey (pfx key : Name128)
  | assetKey (raw : Bytes)
  | tokenKeys (pfx : Name128) (keys : List Name128)
deriving DecidableEq, Repr

/-- A runtime action `rt_action`: token type, op and key payload (the
tagged-pointer packing is a memory-layout trick carrying exactly this
information). -/
structure RtAction where
  ttype : TokenType
  op : ActionOp
  data : RtData
deriving DecidableEq, Repr

/-- A runtime savepoint group `rt_group`: the held snapshot and the
recorded actions in issue order. -/
structure RtGroup where
  snapshot : Snapshot
  actions : List RtAction
deriving DecidableEq, Repr

/-- A persistent action `pd_action`: `(op:u16, type:u16, key, value)`. -/
structure PdAction where
  op : Nat
  ptype : Nat
  key : Bytes
  value : Bytes
deriving DecidableEq, Repr

/-- A persistent savepoint group `pd_group`. -/
structure PdGroup where
  seq : Int
  actions : List PdAction
deriving DecidableEq, Repr

/-- The tagged union held by a savepoint node (`kRuntime`/`kPersist`). -/
inductive SpNode where
  | rt (g : RtGroup)
  | pd (g : PdGroup)
deriving DecidableEq, Repr

/-- A savepoint: sequence number and group node. -/
structure Savepoint where
  seq : Int
  node : SpNode
deriving DecidableEq, Repr

/-- The mutable state of `token_database_impl`: the engine plus the
savepoint deque (head = front/oldest, last = back/top). -/
structure DbState where
  engine : Engine
  savepoints : List Savepoint
deriving DecidableEq, Repr

/-- Error outcomes: each corresponds to a C++ throw or a failed
assertion in the embedded functions. -/
inductive DbErr where
  | seqNotValid
  | noSavepoint
  | squashPre
  | dirtyFlag
  | rocksdb
  | assertFail
deriving DecidableEq, Repr

/-- A write-batch entry (`rocksdb::WriteBatch` ops against the two
column families; ops without an explicit handle target the default
(tokens) family). -/
inductive BatchOp where
  | putTok (k v : Bytes)
  | delTok (k : Bytes)
  | putAst (k v : Bytes)
  | delAst (k : Bytes)
deriving DecidableEq, Repr

/-- Apply a write batch atomically: the ops take effect in order. -/
def applyBatch (e : Engine) : List BatchOp → Engine
  | [] => e
  | .putTok k v :: rest => applyBatch { e with tokens := insertA e.tokens k v } rest
  | .delTok k :: rest => applyBatch { e with tokens := eraseA e.tokens k } rest
  | .putAst k v :: rest => applyBatch { e with assets := insertA e.assets k v } rest
  | .delAst k :: rest => applyBatch { e with assets := eraseA e.assets k } rest

/-- `__internal::get_sp_key` for the three single-key payload kinds, and
the expansion of `rt_token_keys` into one full key per entry: the list
of full keys an action touches, in order. -/
def keysOfAction (a : RtAction) : List Bytes :=
  match a.data with
  | .tokenKey k => [dbTokenKey (actionKeyPfx a.ttype) k]
  | .tokenFullKey p k => [dbTokenKey p k]
  | .assetKey raw => [raw]
  | .tokenKeys p ks => ks.map (fun k => dbTokenKey p k)

/-- All full keys touched by a list of runtime actions, in order. -/
def keysOfActions (as : List RtAction) : List Bytes :=
  as.flatMap keysOfAction

/-! ## Token database: rollback (token_database.cpp, rollback_rt_group /
rollback_pd_group / rollback_to_latest_savepoint) -/

/-- One application of the `fn` closure in `rollback_rt_group`: given the
snapshot, the processed-key set and the batch so far, handle one
`(key, type, op)`.  `add` asserts the key unseen and batch-deletes it
(default family); `update` skips seen keys, else reads the snapshot
pre-image from the default family (a missing key is a rocksdb error) and
batch-puts it; `put` skips seen keys, else reads the snapshot pre-image
from the family selected by the token type and batch-puts it, or
batch-deletes the key when the snapshot does not contain it; any other
op hits `FC_ASSERT(false)`. -/
def rtRollbackStep (snap : Snapshot) (tt : TokenType) (op : ActionOp)
    (st : List Bytes × List BatchOp) (k : Bytes) : Except DbErr (List Bytes × List BatchOp) :=
  match op with
  | .add =>
    if k ∈ st.1 then .error .assertFail
    else .ok (k :: st.1, st.2 ++ [.delTok k])
  | .update =>
    if k ∈ st.1 then .ok st
    else
      match lookupA snap.tokens k with
      | none => .error .rocksdb
      | some old => .ok (k :: st.1, st.2 ++ [.putTok k old])
  | .put =>
    if k ∈ st.1 then .ok st
    else
      match tt with
      | .asset =>
        match lookupA snap.assets k with
        | none => .ok (k :: st.1, st.2 ++ [.delAst k])
        | some old => .ok (k :: st.1, st.2 ++ [.putAst k old])
      | _ =>
        match lookupA snap.tokens k with
        | none => .ok (k :: st.1, st.2 ++ [.delTok k])
        | some old => .ok (k :: st.1, st.2 ++ [.putTok k old])
  | .delete => .error .assertFail

/-- Fold `rtRollbackStep` over a list of expanded keys. -/
def rtRollbackKeys (snap : Snapshot) (tt : TokenType) (op : ActionOp) :
    List Bytes → (List Bytes × List BatchOp) → Except DbErr (List Bytes × List BatchOp)
  | [], st => .ok st
  | k :: rest, st =>
    match rtRollbackStep snap tt op st k with
    | .error e => .error e
    | .ok st2 => rtRollbackKeys snap tt op rest st2

/-- Fold `rtRollbackStep` over the keys of one action. -/
def rtRollbackAction (snap : Snapshot) (a : RtAction)
    (st : List Bytes × List BatchOp) : Except DbErr (List Bytes × List BatchOp) :=
  rtRollbackKeys snap a.ttype a.op (keysOfAction a) st

/-- Fold over all actions of a runtime group, in recorded order. -/
def rtRollbackActions (snap : Snapshot) :
    List RtAction → (List Bytes × List BatchOp) → Except DbErr (List Bytes × List BatchOp)
  | [], st => .ok st
  | a :: rest, st =>
    match rtRollbackAction snap a st with
    | .error e => .error e
    | .ok st2 => rtRollbackActions snap rest st2

/-- `token_database_impl::rollback_rt_group`: an empty action list only
releases the snapshot; otherwise the actions are scanned forward with
per-key dedup building a write batch, which is then applied to the
engine with a synchronous write. -/
def rollbackRtGroup (g : RtGroup) (e : Engine) : Except DbErr Engine :=
  if g.actions = [] then .ok e
  else
    match rtRollbackActions g.snapshot g.actions ([], []) with
    | .error err => .error err
    | .ok (_, batch) => .ok (applyBatch e batch)

/-- One step of `rollback_pd_group`: replay a stored pre-image tuple.
`op=0` (add) asserts the key unseen and the value empty, then
batch-deletes; `op=1` (update) skips seen keys, asserts a non-empty
value and batch-puts it; `op=2` (put) skips seen keys and batch-puts the
value, or batch-deletes when the stored pre-image is empty, against the
family selected by the stored type; other ops hit `assert(false)`. -/
def pdRollbackStep (st : List Bytes × List BatchOp) (a : PdAction) :
    Except DbErr (List Bytes × List BatchOp) :=
  if a.op = 0 then
    if a.key ∈ st.1 then .error .assertFail
    else if a.value ≠ [] then .error .assertFail
    else .ok (a.key :: st.1, st.2 ++ [.delTok a.key])
  else if a.op = 1 then
    if a.key ∈ st.1 then .ok st
    else if a.value = [] then .error .assertFail
    else .ok (a.key :: st.1, st.2 ++ [.putTok a.key a.value])
  else if a.op = 2 then
    if a.key ∈ st.1 then .ok st
    else
      if a.ptype = tokenTypeIdx .asset then
        if a.value = [] then .ok (a.key :: st.1, st.2 ++ [.delAst a.key])
        else .ok (a.key :: st.1, st.2 ++ [.putAst a.key a.value])
      else
        if a.value = [] then .ok (a.key :: st.1, st.2 ++ [.delTok a.key])
        else .ok (a.key :: st.1, st.2 ++ [.putTok a.key a.value])
  else .error .assertFail

/-- Forward scan of `rollback_pd_group` over the stored actions. -/
def pdRollbackActions :
    List PdAction → (List Bytes × List BatchOp) → Except DbErr (List Bytes × List BatchOp)
  | [], st => .ok st
  | a :: rest, st =>
    match pdRollbackStep st a with
    | .error e => .error e
    | .ok st2 => pdRollbackActions rest st2

/-- `token_database_impl::rollback_pd_group`. -/
def rollbackPdGroup (g : PdGroup) (e : Engine) : Except DbErr Engine :=
  if g.actions = [] then .ok e
  else
    match pdRollbackActions g.actions ([], []) with
    | .error err => .error err
    | .ok (_, batch) => .ok (applyBatch e batch)

/-- `token_database_impl::rollback_to_latest_savepoint`: requires a
non-empty stack, rolls the top group back against the engine and pops
the top savepoint. -/
def rollbackToLatestSavepoint (s : DbState) : Except DbErr DbState :=
  match s.savepoints.getLast? with
  | none => .error .noSavepoint
  | some sp => do
    let e ←
      match sp.node with
      | .rt g => rollbackRtGroup g s.engine
      | .pd g => rollbackPdGroup g s.engine
    .ok { engine := e, savepoints := s.savepoints.dropLast }

/-! ## Token database: savepoint stack management -/

/-- `token_database_impl::add_savepoint`: with a non-empty stack a new
sequence must exceed the back's (`b.seq >= seq` throws seq-not-valid);
then an empty runtime savepoint over a fresh snapshot of the current
engine is pushed. -/
def addSavepoint (s : DbState) (seq : Int) : Except DbErr DbState :=
  match s.savepoints.getLast? with
  | some b =>
    if b.seq ≥ seq then .error .seqNotValid
    else .ok { s with savepoints :=
      s.savepoints ++ [{ seq := seq, node := .rt { snapshot := s.engine, actions := [] } }] }
  | none => .ok { s with savepoints :=
      s.savepoints ++ [{ seq := seq, node := .rt { snapshot := s.engine, actions := [] } }] }

/-- `token_database_impl::new_savepoint_session_seq`. -/
def newSavepointSessionSeq (s : DbState) : Int :=
  match s.savepoints.getLast? with
  | some b => b.seq + 1
  | none => 1

/-- `token_database_impl::pop_savepoints(until)`: discard savepoints
from the front while their sequence is below `until`, without applying
them. -/
def popSavepoints (s : DbState) (untilSeq : Int) : DbState :=
  { s with savepoints := s.savepoints.dropWhile (fun sp => sp.seq < untilSeq) }

/-- `token_database_impl::pop_back_savepoint`. -/
def popBackSavepoint (s : DbState) : Except DbErr DbState :=
  if s.savepoints = [] then .error .noSavepoint
  else .ok { s with savepoints := s.savepoints.dropLast }

/-- `token_database_impl::squash`: needs at least two savepoints; the
back and the one below it must both be runtime groups; the top's actions
are appended, in order, to the lower group, the top's snapshot is
released (the lower one is kept) and the top savepoint is popped.  The
engine is not written.  (In the C++ the second arity check throws after
the top was already popped; the thrown path abandons the object, so only
the error itself is modelled.) -/
def squash (s : DbState) : Except DbErr DbState :=
  if s.savepoints.length < 2 then .error .squashPre
  else
    match s.savepoints.getLast? with
    | none => .error .squashPre
    | some top =>
      match top.node with
      | .pd _ => .error .squashPre
      | .rt g1 =>
        let rest := s.savepoints.dropLast
        match rest.getLast? with
        | none => .error .squashPre
        | some lower =>
          match lower.node with
          | .pd _ => .error .squashPre
          | .rt g2 =>
            .ok { s with savepoints := rest.dropLast ++
              [{ seq := lower.seq,
                 node := .rt { snapshot := g2.snapshot, actions := g2.actions ++ g1.actions } }] }

/-! ## Token database: persistence (persist_savepoints / load_savepoints) -/

/-- One application of the `fn` closure in `persist_savepoints`: compute
the key and pre-image value left in `pdact` for one `(key, type, op)`
and the updated processed-key set.  The lambda receives `pdact.key` by
reference, and every first-occurrence `add`/`update`/`put` runs
`key_set.emplace(std::move(key))` before the action is emplaced — the
move empties `pdact.key`, so a first-occurrence action persists an
empty key.  `add` asserts the key unseen and stores no value; `update`
skips seen keys (no move, empty value), else reads the snapshot
pre-image from the default family (missing key is a rocksdb error) and
moves the key; `put` skips seen keys (no move, empty value), else reads
the pre-image from the family selected by the type, empty when absent,
and moves the key; an op outside the switch (such as `delete`) falls
through with an empty value, no move, and does not touch the key set. -/
def persistValueStep (snap : Snapshot) (tt : TokenType) (op : ActionOp)
    (seen : List Bytes) (k : Bytes) : Except DbErr (Bytes × Bytes × List Bytes) :=
  match op with
  | .add =>
    if k ∈ seen then .error .assertFail else .ok ([], [], k :: seen)
  | .update =>
    if k ∈ seen then .ok (k, [], seen)
    else
      match lookupA snap.tokens k with
      | none => .error .rocksdb
      | some v => .ok ([], v, k :: seen)
  | .put =>
    if k ∈ seen then .ok (k, [], seen)
    else
      match tt with
      | .asset => .ok ([], (lookupA snap.assets k).getD [], k :: seen)
      | _ => .ok ([], (lookupA snap.tokens k).getD [], k :: seen)
  | .delete => .ok (k, [], seen)

/-- Materialize the expanded keys of one action: every key is emplaced
as a `pd_action` carrying `(op, type)` as numeric fields and the key and
pre-image left by `persistValueStep` (the key is empty whenever the
closure moved it into `key_set`). -/
def persistKeys (snap : Snapshot) (tt : TokenType) (op : ActionOp) :
    List Bytes → (List Bytes × List PdAction) → Except DbErr (List Bytes × List PdAction)
  | [], st => .ok st
  | k :: rest, st =>
    match persistValueStep snap tt op st.1 k with
    | .error e => .error e
    | .ok (k2, v, seen) =>
      persistKeys snap tt op rest
        (seen, st.2 ++ [{ op := actionOpIdx op, ptype := tokenTypeIdx tt,
                          key := k2, value := v }])

/-- Materialize one runtime action into persistent actions. -/
def persistAction (snap : Snapshot) (a : RtAction)
    (st : List Bytes × List PdAction) : Except DbErr (List Bytes × List PdAction) :=
  persistKeys snap a.ttype a.op (keysOfAction a) st

/-- Forward scan materializing a runtime action list (shared key set). -/
def persistActions (snap : Snapshot) :
    List RtAction → (List Bytes × List PdAction) → Except DbErr (List Bytes × List PdAction)
  | [], st => .ok st
  | a :: rest, st =>
    match persistAction snap a st with
    | .error e => .error e
    | .ok st2 => persistActions snap rest st2

/-- Materialize a whole runtime group. -/
def persistRtActions (snap : Snapshot) (as : List RtAction) :
    Except DbErr (List PdAction) :=
  match persistActions snap as ([], []) with
  | .error e => .error e
  | .ok (_, pas) => .ok pas

/-- Materialize one savepoint into a `pd_group`: persistent groups are
copied through action-by-action; runtime groups go through
`persistRtActions` reading from the group's snapshot. -/
def persistSavepoint (sp : Savepoint) : Except DbErr PdGroup :=
  match sp.node with
  | .pd g => .ok { seq := sp.seq, actions := g.actions }
  | .rt g => do
    let pas ← persistRtActions g.snapshot g.actions
    .ok { seq := sp.seq, actions := pas }

/-- Materialize a savepoint list in order. -/
def persistSavepointList : List Savepoint → Except DbErr (List PdGroup)
  | [] => .ok []
  | sp :: rest =>
    match persistSavepoint sp with
    | .error e => .error e
    | .ok g =>
      match persistSavepointList rest with
      | .error e => .error e
      | .ok gs => .ok (g :: gs)

/-- Materialize the whole stack in order. -/
def persistAllSavepoints (s : DbState) : Except DbErr (List PdGroup) :=
  persistSavepointList s.savepoints

/-- Modelled from the spec: `fc::raw::pack` of a length-16 byte string
field (pd_action key/value): LEB128 length prefix then the raw bytes. -/
def packStr (s : Bytes) : Bytes :=
  packVarint s.length ++ s

/-- Modelled from the spec: byte-string decoder matching `packStr`. -/
def unpackStr (bs : Bytes) : Option (Bytes × Bytes) :=
  match unpackVarint bs with
  | none => none
  | some (n, r) => if n ≤ r.length then some (r.take n, r.drop n) else none

/-- Modelled from the spec: `fc::raw::pack` of an `int64_t` — eight
little-endian bytes of the two's-complement value. -/
def packI64 (n : Int) : Bytes :=
  packLE 8 (n % 2 ^ 64).toNat

/-- Modelled from the spec: `int64_t` decoder matching `packI64`. -/
def unpackI64 (bs : Bytes) : Option (Int × Bytes) :=
  match unpackLE 8 bs with
  | none => none
  | some (u, r) => some (if u < 2 ^ 63 then (u : Int) else (u : Int) - 2 ^ 64, r)

/-- Serialized form of a `pd_action` per `FC_REFLECT(pd_action,
(op)(type)(key)(value))`: two little-endian u16 fields then the two
length-prefixed byte strings. -/
def packPdAction (a : PdAction) : Bytes :=
  packLE 2 a.op ++ packLE 2 a.ptype ++ packStr a.key ++ packStr a.value

/-- Decoder matching `packPdAction`. -/
def unpackPdAction (bs : Bytes) : Option (PdAction × Bytes) :=
  match unpackLE 2 bs with
  | none => none
  | some (op, r1) =>
    match unpackLE 2 r1 with
    | none => none
    | some (ty, r2) =>
      match unpackStr r2 with
      | none => none
      | some (k, r3) =>
        match unpackStr r3 with
        | none => none
        | some (v, r4) => some ({ op := op, ptype := ty, key := k, value := v }, r4)

/-- Modelled from the spec: `fc::raw::pack` of a vector — LEB128 element
count followed by the packed elements. -/
def packVec {α : Type} (packer : α → Bytes) (xs : List α) : Bytes :=
  packVarint xs.length ++ (xs.map packer).flatten

/-- Count-driven list decoder matching `packVec`'s element sequence. -/
def unpackN {α : Type} (unpacker : Bytes → Option (α × Bytes)) :
    Nat → Bytes → Option (List α × Bytes)
  | 0, bs => some ([], bs)
  | n + 1, bs =>
    match unpacker bs with
    | none => none
    | some (x, r) =>
      match unpackN unpacker n r with
      | none => none
      | some (xs, r2) => some (x :: xs, r2)

/-- Decoder matching `packVec`. -/
def unpackVec {α : Type} (unpacker : Bytes → Option (α × Bytes)) (bs : Bytes) :
    Option (List α × Bytes) :=
  match unpackVarint bs with
  | none => none
  | some (n, r) => unpackN unpacker n r

/-- Serialized form of a `pd_group` per `FC_REFLECT(pd_group,
(seq)(actions))`. -/
def packPdGroup (g : PdGroup) : Bytes :=
  packI64 g.seq ++ packVec packPdAction g.actions

/-- Decoder matching `packPdGroup`. -/
def unpackPdGroup (bs : Bytes) : Option (PdGroup × Bytes) :=
  match unpackI64 bs with
  | none => none
  | some (seq, r1) =>
    match unpackVec unpackPdAction r1 with
    | none => none
    | some (pas, r2) => some ({ seq := seq, actions := pas }, r2)

/-- Serialized form of `pd_header` per `FC_REFLECT(pd_header,
(dirty_flag))`: one little-endian 32-bit int. -/
def packHeader (dirty : Nat) : Bytes :=
  packLE 4 dirty

/-- An output stream with a write position, enough to model
`fc::raw::pack(os, ...)` runs followed by `os.seekp(0)`. -/
structure OStream where
  buf : Bytes
  pos : Nat
deriving DecidableEq, Repr

/-- Write bytes at the stream position, overwriting in place and
extending at the end, then advance the position. -/
def osWrite (os : OStream) (bs : Bytes) : OStream :=
  { buf := os.buf.take os.pos ++ bs ++ os.buf.drop (os.pos + bs.length),
    pos := os.pos + bs.length }

/-- The stream state of `persist_savepoints(std::ostream&)` after the
header and the savepoint list are written but before the seek back: the
dirty flag is still 1. -/
def persistStreamMid (s : DbState) : Except DbErr OStream := do
  let os0 : OStream := { buf := [], pos := 0 }
  let os1 := osWrite os0 (packHeader 1)
  let pds ← persistAllSavepoints s
  .ok (osWrite os1 (packVec packPdGroup pds))

/-- `token_database_impl::persist_savepoints(std::ostream&)`: pack a
header with dirty flag 1, pack the materialized savepoint list, then
seek to the start and re-pack the header with dirty flag 0. -/
def persistStream (s : DbState) : Except DbErr OStream := do
  let os2 ← persistStreamMid s
  .ok (osWrite { os2 with pos := 0 } (packHeader 0))

/-- `token_database_impl::load_savepoints(std::istream&)`: unpack the
header, reject a non-zero dirty flag, then unpack the group list and
append every group to the stack as a persistent-form savepoint carrying
the group's sequence number. -/
def loadSavepointsStream (bs : Bytes) : Except DbErr (List Savepoint) :=
  match unpackLE 4 bs with
  | none => .error .rocksdb
  | some (dirty, r1) =>
    if dirty ≠ 0 then .error .dirtyFlag
    else
      match unpackVec unpackPdGroup r1 with
      | none => .error .rocksdb
      | some (pds, _) =>
        .ok (pds.map (fun g => { seq := g.seq, node := .pd g }))

/-! ## Token database: recording mutations (put_token / record) -/

/-- `token_database_impl::record`: a no-op on an empty stack, otherwise
the back savepoint must be a runtime group (asserted) and the action is
appended to its list. -/
def recordAction (s : DbState) (a : RtAction) : Except DbErr DbState :=
  match s.savepoints.getLast? with
  | none => .ok s
  | some sp =>
    match sp.node with
    | .pd _ => .error .assertFail
    | .rt g =>
      .ok { s with savepoints := s.savepoints.dropLast ++
        [{ sp with node := .rt { g with actions := g.actions ++ [a] } }] }

/-- `token_database_impl::put_token`: write the value under the 32-byte
token key in the default family, then (when a savepoint is open) record
a `kTokenKey` action for non-`token` types — asserting the prefix equals
the type's canonical prefix — or a `kTokenFullKey` action for the
`token` type. -/
def putTokenImpl (s : DbState) (t : TokenType) (op : ActionOp)
    (pfx key : Name128) (data : Bytes) : Except DbErr DbState :=
  let s1 : DbState :=
    { s with engine := { s.engine with
        tokens := insertA s.engine.tokens (dbTokenKey pfx key) data } }
  if s1.savepoints = [] then .ok s1
  else
    if t ≠ .token then
      if pfx ≠ actionKeyPfx t then .error .assertFail
      else recordAction s1 { ttype := t, op := op, data := .tokenKey key }
    else recordAction s1 { ttype := t, op := op, data := .tokenFullKey pfx key }

/-- `token_database::put_token` (outer wrapper): asserts the type is not
`asset` and that a domain is supplied for any type other than `token`;
the prefix defaults to the type's canonical prefix. -/
def putToken (s : DbState) (t : TokenType) (op : ActionOp)
    (domain : Option Name128) (key : Name128) (data : Bytes) : Except DbErr DbState :=
  if t = .asset then .error .assertFail
  else if t ≠ .token ∧ domain = none then .error .assertFail
  else putTokenImpl s t op (domain.getD (actionKeyPfx t)) key data

/-! ## Token database cache (token_database_cache.hpp) -/

/-- Byte form of `token_database_cache::cache_key`: the packed
`(int)type`, the packed `optional<name128>` domain and the packed
`name128` key.  (Modelled from the spec: `fc::raw` packs the optional as
a flag byte and a `name128` as its 16 raw bytes; fc is outside src/.) -/
def cacheKeyBytes (t : TokenType) (domain : Option Name128) (key : Name128) : Bytes :=
  packLE 4 (tokenTypeIdx t) ++ (match domain with | none => [0] | some d => 1 :: d) ++ key

/-- Observable effects of `token_database_cache::put_token`, in issue
order: the write-through of the serialized value into the token
database, and the cache insertion of the deserialized entry. -/
inductive CacheEffect where
  | dbWrite (serialized : Bytes)
  | cacheIns (cacheKey : Bytes)
deriving DecidableEq, Repr

/-- `token_database_cache::put_token`: build the cache key, assert no
entry exists for it (`FC_ASSERT(!cache_->Lookup(...))`, before touching
the database), then write the serialized value through
`db_.put_token` and finally insert the deserialized entry into the
cache.  The second component lists the effects actually performed. -/
def cachePutToken {V : Type} (ser : V → Bytes) (cache : List (Bytes × V)) (db : DbState)
    (t : TokenType) (op : ActionOp) (domain : Option Name128) (key : Name128) (v : V) :
    Except DbErr (List (Bytes × V) × DbState) × List CacheEffect :=
  let ck := cacheKeyBytes t domain key
  if (lookupA cache ck).isSome then (.error .assertFail, [])
  else
    match putToken db t op domain key (ser v) with
    | .error e => (.error e, [.dbWrite (ser v)])
    | .ok db2 => (.ok (insertA cache ck v, db2), [.dbWrite (ser v), .cacheIns ck])

/-! ## Reference definitions written from the spec's words -/

/-- The expanded `(type, op, key)` triples of a runtime action list, in
recorded order. -/
def triplesOfActions (as : List RtAction) : List (TokenType × ActionOp × Bytes) :=
  as.flatMap (fun a => (keysOfAction a).map (fun k => (a.ttype, a.op, k)))

/-- Written from the spec sentence for rollback: the inverse operation
of one recorded action applied directly to the engine — `add` deletes
the key; `update` puts back the old value read from the savepoint's
snapshot; `put` puts back the old value when the key was present in the
snapshot and deletes the key otherwise (asset puts target the Assets
family); `delete` puts back the old value. -/
def specInverseStep (snap : Snapshot) (e : Engine) :
    TokenType × ActionOp × Bytes → Engine
  | (tt, op, k) =>
    match op with
    | .add => { e with tokens := eraseA e.tokens k }
    | .update => { e with tokens := insertA e.tokens k ((lookupA snap.tokens k).getD []) }
    | .put =>
      match tt with
      | .asset =>
        match lookupA snap.assets k with
        | some old => { e with assets := insertA e.assets k old }
        | none => { e with assets := eraseA e.assets k }
      | _ =>
        match lookupA snap.tokens k with
        | some old => { e with tokens := insertA e.tokens k old }
        | none => { e with tokens := eraseA e.tokens k }
    | .delete => { e with tokens := insertA e.tokens k ((lookupA snap.tokens k).getD []) }

/-- Written from the spec sentence for rollback: apply the inverse of
each recorded action in forward order. -/
def specRollbackRt (snap : Snapshot) (as : List RtAction) (e : Engine) : Engine :=
  (triplesOfActions as).foldl (specInverseStep snap) e

/-- Written from the amended materialization sentence: the key and
pre-image stored for each expanded triple.  The value is empty for
`add`, the snapshot's old value for a first-occurrence `update`, the
old value or empty for a first-occurrence `put` depending on presence
in the snapshot, and empty both for `delete` and for any action whose
key was already processed; a `delete` does not mark its key processed.
The emplaced key is the moved-from empty string for every
first-occurrence `add`/`update`/`put`; only a skipped duplicate or a
`delete` keeps the real key bytes. -/
def specPersistActions (snap : Snapshot) :
    List Bytes → List (TokenType × ActionOp × Bytes) → List PdAction
  | _, [] => []
  | seen, (tt, op, k) :: rest =>
    let v : Bytes :=
      if k ∈ seen then []
      else
        match op with
        | .add => []
        | .update => (lookupA snap.tokens k).getD []
        | .put =>
          match tt with
          | .asset => (lookupA snap.assets k).getD []
          | _ => (lookupA snap.tokens k).getD []
        | .delete => []
    let k2 : Bytes := if op = .delete ∨ k ∈ seen then k else []
    let seen2 := if op = .delete ∨ k ∈ seen then seen else k :: seen
    { op := actionOpIdx op, ptype := tokenTypeIdx tt, key := k2, value := v } ::
      specPersistActions snap seen2 rest

/-! ## ABI serializer: type environment (abi_serializer.cpp) -/

/-- Structured values (`fc::variant`): null, object, array, integral
scalar, byte string.  Scalars and byte strings are the shapes produced
by the built-in pack/unpack registrations. -/
inductive Value where
  | vnull
  | vobj (fields : List (String × Value))
  | varr (elems : List Value)
  | vnum (n : Nat)
  | vbytes (bs : Bytes)

/-- A built-in type registration (`pack_unpack<T>()`): the element-level
pack and unpack of `fc::raw` for the underlying C++ type, which lives
outside src/ and is therefore kept abstract; array and optional
decorations are layered on top exactly as the registered lambdas do. -/
structure BuiltinCodec where
  enc : Value → Option Bytes
  dec : Bytes → Option (Value × Bytes)

/-- A struct definition (`struct_def`): name, single base (empty string
for none, matching `type_name()`), and fields in declaration order as
(name, type) pairs. -/
structure StructDef where
  sname : String
  base : String
  fields : List (String × String)

/-- The serializer environment: built-in registry, `typedefs`,
`structs` and `actions` maps. -/
structure AbiEnv where
  builtins : List (String × BuiltinCodec)
  typedefs : List (String × String)
  structs : List (String × StructDef)
  actions : List (String × String)

/-- `abi_serializer::is_array`: the type name ends in `[]` (type names
are ASCII, so the character-level test matches the byte-level
`ends_with`). -/
def arrQ (t : String) : Bool :=
  match t.data.reverse with
  | ']' :: '[' :: _ => true
  | _ => false

/-- `abi_serializer::is_optional`: the type name ends in `?`. -/
def optQ (t : String) : Bool :=
  match t.data.reverse with
  | '?' :: _ => true
  | _ => false

/-- `abi_serializer::fundamental_type`: strip one `[]` or `?`. -/
def fundamentalType (t : String) : String :=
  if arrQ t then String.mk t.data.dropLast.dropLast
  else if optQ t then String.mk t.data.dropLast
  else t

/-- `abi_serializer::resolve_type`: follow typedef links until the name
is not a typedef; the C++ recursion can diverge on a cyclic environment,
so fuel exhaustion yields `none`. -/
def resolveType (env : AbiEnv) : Nat → String → Option String
  | 0, _ => none
  | f + 1, t =>
    match lookupA env.typedefs t with
    | some u => resolveType env f u
    | none => some t

/-- `abi_serializer::is_type`: the fundamental type is a built-in, a
typedef whose target is a type, or a struct. -/
def isType (env : AbiEnv) : Nat → String → Option Bool
  | 0, _ => none
  | f + 1, rt =>
    let ft := fundamentalType rt
    if (lookupA env.builtins ft).isSome then some true
    else
      match lookupA env.typedefs ft with
      | some u => isType env f u
      | none => some (lookupA env.structs ft).isSome

/-! ## ABI serializer: built-in decorator wrappers -/

/-- Element-wise encoding of a list (`fc::raw::pack` of each element of
a vector, in order). -/
def encListM (enc : Value → Option Bytes) : List Value → Option (List Bytes)
  | [] => some []
  | v :: vs =>
    match enc v with
    | none => none
    | some b =>
      match encListM enc vs with
      | none => none
      | some bs => some (b :: bs)

/-- Count-driven element decoding (`fc::raw::unpack` of a vector body). -/
def decCount (dec : Bytes → Option (Value × Bytes)) :
    Nat → Bytes → Option (List Value × Bytes)
  | 0, bs => some ([], bs)
  | n + 1, bs =>
    match dec bs with
    | none => none
    | some (v, r) =>
      match decCount dec n r with
      | none => none
      | some (vs, r2) => some (v :: vs, r2)

/-- The registered pack lambda with `is_array` set:
`fc::raw::pack(ds, var.as<vector<T>>())` — a varint element count then
the packed elements; a non-array variant fails the conversion. -/
def encVec (c : BuiltinCodec) : Value → Option Bytes
  | .varr vs =>
    match encListM c.enc vs with
    | none => none
    | some parts => some (packVarint vs.length ++ parts.flatten)
  | _ => none

/-- The registered unpack lambda with `is_array` set. -/
def decVec (c : BuiltinCodec) (bs : Bytes) : Option (Value × Bytes) :=
  match unpackVarint bs with
  | none => none
  | some (n, r) =>
    match decCount c.dec n r with
    | none => none
    | some (vs, r2) => some (.varr vs, r2)

/-- The registered pack lambda with `is_optional` set:
`fc::raw::pack(ds, var.as<optional<T>>())` — a null variant packs the
flag byte 0, any other value packs flag byte 1 then the payload. -/
def encOpt (c : BuiltinCodec) (v : Value) : Option Bytes :=
  match v with
  | .vnull => some [0]
  | _ =>
    match c.enc v with
    | none => none
    | some b => some (1 :: b)

/-- The registered unpack lambda with `is_optional` set: a zero flag
byte yields the null variant, otherwise the payload is unpacked. -/
def decOpt (c : BuiltinCodec) : Bytes → Option (Value × Bytes)
  | [] => none
  | b :: r => if b = 0 then some (.vnull, r) else c.dec r

/-! ## ABI serializer: binary_to_variant -/

/-- Decode the fields of a struct in declaration order
(`obj(field.name, binary_to_variant(resolve_type(field.type), stream))`),
with the element decoder supplied by the enclosing fuel level. -/
def b2vFieldsGo (resolve : String → Option String)
    (dec : String → Bytes → Option (Value × Bytes)) :
    List (String × String) → Bytes → Option (List (String × Value) × Bytes)
  | [], bs => some ([], bs)
  | (fn, ft) :: rest, bs =>
    match resolve ft with
    | none => none
    | some rft =>
      match dec rft bs with
      | none => none
      | some (v, r) =>
        match b2vFieldsGo resolve dec rest r with
        | none => none
        | some (fvs, r2) => some ((fn, v) :: fvs, r2)

/-- One fuel level of `binary_to_variant`: the first component is the
two-argument overload (abi_serializer.cpp:262-289), the second the
struct-accumulating three-argument overload (abi_serializer.cpp:250-260).
Sub-calls run at the previous fuel level; fuel exhaustion yields
`none`. -/
def b2vAux (env : AbiEnv) : Nat →
    ((String → Bytes → Option (Value × Bytes)) ×
     (String → Bytes → Option (List (String × Value) × Bytes)))
  | 0 => (fun _ _ => none, fun _ _ => none)
  | f + 1 =>
    let prev := b2vAux env f
    let structDec : String → Bytes → Option (List (String × Value) × Bytes) :=
      fun s bs =>
        match resolveType env f s with
        | none => none
        | some rs =>
          match lookupA env.structs rs with
          | none => none
          | some st =>
            let baseRes : Option (List (String × Value) × Bytes) :=
              if st.base = "" then some ([], bs)
              else
                match resolveType env f st.base with
                | none => none
                | some rb => prev.2 rb bs
            match baseRes with
            | none => none
            | some (bflds, r1) =>
              match b2vFieldsGo (resolveType env f) prev.1 st.fields r1 with
              | none => none
              | some (oflds, r2) => some (bflds ++ oflds, r2)
    let valDec : String → Bytes → Option (Value × Bytes) :=
      fun t bs =>
        match resolveType env f t with
        | none => none
        | some rt =>
          let ft := fundamentalType rt
          match lookupA env.builtins ft with
          | some c =>
            if arrQ rt then decVec c bs
            else if optQ rt then decOpt c bs
            else c.dec bs
          | none =>
            if arrQ rt then
              match unpackVarint bs with
              | none => none
              | some (n, r) =>
                match decCount (prev.1 ft) n r with
                | none => none
                | some (vs, r2) => some (.varr vs, r2)
            else if optQ rt then
              match bs with
              | [] => none
              | b :: r => if b = 0 then some (.vnull, r) else prev.1 ft r
            else
              match structDec rt bs with
              | none => none
              | some (flds, r) => some (.vobj flds, r)
    (valDec, structDec)

/-- `abi_serializer::binary_to_variant` (stream overload) at a fuel
level. -/
def b2v (env : AbiEnv) (f : Nat) (t : String) (bs : Bytes) : Option (Value × Bytes) :=
  (b2vAux env f).1 t bs

/-- The struct-accumulating `binary_to_variant` overload at a fuel
level, returning the decoded (name, value) pairs in order. -/
def b2vStruct (env : AbiEnv) (f : Nat) (s : String) (bs : Bytes) :
    Option (List (String × Value) × Bytes) :=
  (b2vAux env f).2 s bs

/-- `abi_serializer::binary_to_variant` (bytes overload): decode from
the front of the byte string; an unconsumed tail is ignored. -/
def binaryToVariantTop (env : AbiEnv) (f : Nat) (t : String) (bs : Bytes) : Option Value :=
  match b2v env f t bs with
  | none => none
  | some (v, _) => some v

/-! ## ABI serializer: variant_to_binary -/

/-- Encode the fields of a struct from an object: each declared field
must be present in the object (`vo.contains`), otherwise the missing
field aborts the encode (`FC_THROW`); present fields are encoded with
their declared (unresolved) type by the supplied encoder. -/
def v2bFieldsGo (enc : String → Value → Option Bytes) :
    List (String × String) → List (String × Value) → Option Bytes
  | [], _ => some []
  | (fn, ft) :: rest, vo =>
    match lookupA vo fn with
    | none => none
    | some fv =>
      match enc ft fv with
      | none => none
      | some b =>
        match v2bFieldsGo enc rest vo with
        | none => none
        | some bs => some (b ++ bs)

/-- Encode the fields of a struct positionally from an array: field `i`
takes element `i`, and a field beyond the array's length takes the null
variant. -/
def v2bPosGo (enc : String → Value → Option Bytes) :
    List (String × String) → List Value → Option Bytes
  | [], _ => some []
  | (_, ft) :: rest, vs =>
    match enc ft (vs.headD .vnull) with
    | none => none
    | some b =>
      match v2bPosGo enc rest vs.tail with
      | none => none
      | some bs => some (b ++ bs)

/-- One fuel level of `variant_to_binary` (the stream overload,
abi_serializer.cpp:297-355).  The first component encodes a value at a
type; the second is the struct branch factored out (resolve the name,
find the struct, then dispatch on the variant shape: object — base
first, then fields by name; array — positional, only without a base and
writing nothing for an empty array; any other shape writes nothing). -/
def v2bAux (env : AbiEnv) : Nat →
    ((String → Value → Option Bytes) × (String → Value → Option Bytes))
  | 0 => (fun _ _ => none, fun _ _ => none)
  | f + 1 =>
    let prev := v2bAux env f
    let structEnc : String → Value → Option Bytes :=
      fun s v =>
        match resolveType env f s with
        | none => none
        | some rs =>
          match lookupA env.structs rs with
          | none => none
          | some st =>
            match v with
            | .vobj vo =>
              let baseRes : Option Bytes :=
                if st.base = "" then some []
                else
                  match resolveType env f st.base with
                  | none => none
                  | some rb => prev.1 rb (.vobj vo)
              match baseRes with
              | none => none
              | some bb =>
                match v2bFieldsGo prev.1 st.fields vo with
                | none => none
                | some fb => some (bb ++ fb)
            | .varr va =>
              if st.base ≠ "" then none
              else if va.length = 0 then some []
              else v2bPosGo prev.1 st.fields va
            | _ => some []
    let valEnc : String → Value → Option Bytes :=
      fun t v =>
        match resolveType env f t with
        | none => none
        | some rt =>
          let ft := fundamentalType rt
          match lookupA env.builtins ft with
          | some c =>
            if arrQ rt then encVec c v
            else if optQ rt then encOpt c v
            else c.enc v
          | none =>
            if arrQ rt then
              match v with
              | .varr vs =>
                match encListM (prev.1 ft) vs with
                | none => none
                | some parts => some (packVarint vs.length ++ parts.flatten)
              | _ => none
            else structEnc rt v
    (valEnc, structEnc)

/-- `abi_serializer::variant_to_binary` (stream overload) at a fuel
level. -/
def v2b (env : AbiEnv) (f : Nat) (t : String) (v : Value) : Option Bytes :=
  (v2bAux env f).1 t v

/-- The struct branch of `variant_to_binary` at a fuel level. -/
def v2bObj (env : AbiEnv) (f : Nat) (s : String) (v : Value) : Option Bytes :=
  (v2bAux env f).2 s v

/-- Modelled from the spec: `fc::variant::as<bytes>()` (fc is outside
src/) converts a byte-string variant to its raw bytes and fails on any
other shape. -/
def vAsBytes : Value → Option Bytes
  | .vbytes bs => some bs
  | _ => none

/-- `abi_serializer::variant_to_binary` (bytes overload,
abi_serializer.cpp:357-371): when `is_type` rejects the type the
variant itself is converted with `var.as<bytes>()`; otherwise the
stream overload runs. -/
def variantToBinaryTop (env : AbiEnv) (f : Nat) (t : String) (v : Value) : Option Bytes :=
  match isType env f t with
  | none => none
  | some false => vAsBytes v
  | some true => v2b env f t v

/-! ## ABI serializer: admissible values -/

/-- A well-behaved built-in registration: whatever the pack accepts, the
unpack returns unchanged, consuming exactly the packed bytes. -/
def GoodCodec (c : BuiltinCodec) : Prop :=
  ∀ v out rest, c.enc v = some out → c.dec (out ++ rest) = some (v, rest)

/-- Every built-in registered in the environment is well-behaved. -/
def GoodBuiltins (env : AbiEnv) : Prop :=
  ∀ n c, (n, c) ∈ env.builtins → GoodCodec c

mutual
/-- Values admissible to a type at a fuel level: the value has exactly
the shape the serializer itself produces when decoding that type —
built-in scalars accepted by the registered pack, arrays element-wise,
optionals restricted to built-in fundamental types (null or an accepted
payload), and objects in canonical flattened field form for struct
types. -/
inductive Adm (env : AbiEnv) : Nat → String → Value → Prop where
  | builtinPlain (f : Nat) (t rt : String) (c : BuiltinCodec) (v : Value) (out : Bytes)
      (hres : resolveType env f t = some rt)
      (hb : lookupA env.builtins (fundamentalType rt) = some c)
      (harr : arrQ rt = false) (hopt : optQ rt = false)
      (henc : c.enc v = some out) :
      Adm env (f + 1) t v
  | builtinArr (f : Nat) (t rt : String) (c : BuiltinCodec) (vs : List Value)
      (hres : resolveType env f t = some rt)
      (hb : lookupA env.builtins (fundamentalType rt) = some c)
      (harr : arrQ rt = true)
      (helts : ∀ x ∈ vs, x ≠ Value.vnull ∧ (c.enc x).isSome) :
      Adm env (f + 1) t (Value.varr vs)
  | builtinOptNull (f : Nat) (t rt : String) (c : BuiltinCodec)
      (hres : resolveType env f t = some rt)
      (hb : lookupA env.builtins (fundamentalType rt) = some c)
      (harr : arrQ rt = false) (hopt : optQ rt = true) :
      Adm env (f + 1) t Value.vnull
  | builtinOptSome (f : Nat) (t rt : String) (c : BuiltinCodec) (v : Value) (out : Bytes)
      (hres : resolveType env f t = some rt)
      (hb : lookupA env.builtins (fundamentalType rt) = some c)
      (harr : arrQ rt = false) (hopt : optQ rt = true)
      (hnn : v ≠ Value.vnull)
      (henc : c.enc v = some out) :
      Adm env (f + 1) t v
  | arrOfNonBuiltin (f : Nat) (t rt : String) (vs : List Value)
      (hres : resolveType env f t = some rt)
      (hb : lookupA env.builtins (fundamentalType rt) = none)
      (harr : arrQ rt = true)
      (helts : ∀ x ∈ vs, Adm env f (fundamentalType rt) x) :
      Adm env (f + 1) t (Value.varr vs)
  | structObj (f : Nat) (t rt : String) (flds : List (String × Value))
      (hres : resolveType env f t = some rt)
      (hb : lookupA env.builtins (fundamentalType rt) = none)
      (harr : arrQ rt = false) (hopt : optQ rt = false)
      (hflat : AdmFlat env (f + 1) rt flds)
      (hnd : (flds.map Prod.fst).Nodup) :
      Adm env (f + 1) t (Value.vobj flds)

/-- The canonical flattened field list of a struct type name: the base
chain's fields first, then the struct's own fields in declaration
order, every value admissible to its field type. -/
inductive AdmFlat (env : AbiEnv) : Nat → String → List (String × Value) → Prop where
  | noBase (f : Nat) (s rs : String) (st : StructDef) (oflds : List (String × Value))
      (hres : resolveType env f s = some rs)
      (hb : lookupA env.builtins rs = none)
      (harr : arrQ rs = false) (hopt : optQ rs = false)
      (hst : lookupA env.structs rs = some st)
      (hbase : st.base = "")
      (hflds : AdmFields env f st.fields oflds) :
      AdmFlat env (f + 1) s oflds
  | withBase (f : Nat) (s rs : String) (st : StructDef) (rb : String)
      (bflds oflds : List (String × Value))
      (hres : resolveType env f s = some rs)
      (hb : lookupA env.builtins rs = none)
      (harr : arrQ rs = false) (hopt : optQ rs = false)
      (hst : lookupA env.structs rs = some st)
      (hbase : st.base ≠ "")
      (hrb : resolveType env f st.base = some rb)
      (hbflds : AdmFlat env f rb bflds)
      (hflds : AdmFields env f st.fields oflds) :
      AdmFlat env (f + 1) s (bflds ++ oflds)

/-- Field-wise admissibility: the object's (name, value) pairs follow
the declared fields in order, each value admissible to its declared
field type. -/
inductive AdmFields (env : AbiEnv) : Nat → List (String × String) → List (String × Value) → Prop where
  | nil (f : Nat) : AdmFields env f [] []
  | cons (f : Nat) (fn ft rft : String) (fv : Value)
      (rest : List (String × String)) (orest : List (String × Value))
      (hres : resolveType env f ft = some rft)
      (hv : Adm env f ft fv)
      (hrest : AdmFields env f rest orest) :
      AdmFields env f ((fn, ft) :: rest) ((fn, fv) :: orest)
end

/-! ## Concrete instances used as witness inputs -/

/-- A concrete well-behaved built-in codec standing for the registered
`uint8` pack/unpack pair: one raw byte. -/
def u8Codec : BuiltinCodec where
  enc v :=
    match v with
    | .vnum n => if n < 256 then some [n] else none
    | _ => none
  dec bs :=
    match bs with
    | [] => none
    | b :: r => some (.vnum b, r)

/-- A concrete environment: `uint8` built-in; struct `B` with field
`b : uint8`; struct `S` with base `B` and fields `x : uint8`,
`ys : uint8[]`, `o : uint8?`; action `act` of type `S`. -/
def cenv : AbiEnv where
  builtins := [("uint8", u8Codec)]
  typedefs := []
  structs :=
    [("B", { sname := "B", base := "", fields := [("b", "uint8")] }),
     ("S", { sname := "S", base := "B",
             fields := [("x", "uint8"), ("ys", "uint8[]"), ("o", "uint8?")] })]
  actions := [("act", "S")]

/-- A concrete environment exercising an optional over a struct type:
struct `Q` with field `x : uint8`; struct `S` with field `f : Q?`;
action `act` of type `S`. -/
def cenvOptStruct : AbiEnv where
  builtins := [("uint8", u8Codec)]
  typedefs := []
  structs :=
    [("Q", { sname := "Q", base := "", fields := [("x", "uint8")] }),
     ("S", { sname := "S", base := "", fields := [("f", "Q?")] })]
  actions := [("act", "S")]

/-- Iterate `add_savepoint` over a request list, ignoring rejected
requests (the caller catches the seq-not-valid throw and the stack is
unchanged by it). -/
def applyAddSavepoints (s : DbState) : List Int → DbState
  | [] => s
  | q :: rest =>
    match addSavepoint s q with
    | .error _ => applyAddSavepoints s rest
    | .ok s2 => applyAddSavepoints s2 rest

/-- Strict ordering of the savepoint stack by sequence number. -/
def SeqSorted (sps : List Savepoint) : Prop :=
  sps.Chain' (fun a b => a.seq < b.seq)

/-- Triple-level restatement of the rollback scan: one `rtRollbackStep`
per expanded `(type, op, key)` triple. -/
def rtRollbackTriples (snap : Snapshot) :
    List (TokenType × ActionOp × Bytes) → (List Bytes × List BatchOp) →
    Except DbErr (List Bytes × List BatchOp)
  | [], st => .ok st
  | (tt, op, k) :: rest, st =>
    match rtRollbackStep snap tt op st k with
    | .error e => .error e
    | .ok st2 => rtRollbackTriples snap rest st2

/-- Triple-level restatement of the materialization scan. -/
def persistTriples (snap : Snapshot) :
    List (TokenType × ActionOp × Bytes) → (List Bytes × List PdAction) →
    Except DbErr (List Bytes × List PdAction)
  | [], st => .ok st
  | (tt, op, k) :: rest, st =>
    match persistValueStep snap tt op st.1 k with
    | .error e => .error e
    | .ok (k2, v, seen) =>
      persistTriples snap rest
        (seen, st.2 ++ [{ op := actionOpIdx op, ptype := tokenTypeIdx tt,
                          key := k2, value := v }])

/-- Serialization side conditions for a persisted group list: sequence
numbers fit `int64` and the numeric op/type fields fit `u16`. -/
def WfPdGroups (pds : List PdGroup) : Prop :=
  ∀ g ∈ pds, (-(2 : Int) ^ 63) ≤ g.seq ∧ g.seq < 2 ^ 63 ∧
    ∀ a ∈ g.actions, a.op < 2 ^ 16 ∧ a.ptype < 2 ^ 16

instance : DecidablePred WfPdGroups := fun _ =>
  inferInstanceAs (Decidable (∀ _ ∈ _, _))

/-- Decidable equality on `Except`, for evaluating concrete outcomes. -/
instance exceptDecEq {e a : Type} [DecidableEq e] [DecidableEq a] :
    DecidableEq (Except e a) := fun x y =>
  match x, y with
  | .error u, .error v =>
    if h : u = v then .isTrue (by rw [h]) else .isFalse (by intro c; cases c; exact h rfl)
  | .error _, .ok _ => .isFalse (by intro c; cases c)
  | .ok _, .error _ => .isFalse (by intro c; cases c)
  | .ok u, .ok v =>
    if h : u = v then .isTrue (by rw [h]) else .isFalse (by intro c; cases c; exact h rfl)

/-! ## Concrete witness inputs -/

/-- A tiny two-entry engine used by witnesses. -/
def wEngine : Engine := { tokens := [([1], [2])], assets := [] }

/-- A concrete stack with one persistent and one runtime savepoint. -/
def wStack5 : DbState :=
  { engine := wEngine,
    savepoints :=
      [{ seq := 1,
         node := .pd { seq := 1, actions := [{ op := 2, ptype := 0, key := [3], value := [] }] } },
       { seq := 2,
         node := .rt { snapshot := wEngine,
                       actions := [{ ttype := .domain, op := .update,
                                     data := .tokenFullKey [1] [] }] } }] }

/-- The materialized groups of `wStack5`: the runtime group's
first-occurrence update persists a moved-from empty key with the
snapshot pre-image. -/
def wPds5 : List PdGroup :=
  [{ seq := 1, actions := [{ op := 2, ptype := 0, key := [3], value := [] }] },
   { seq := 2, actions := [{ op := 1, ptype := 1, key := [], value := [2] }] }]

/-- Two concrete runtime savepoints over `wEngine` used by witnesses. -/
def wRtSpA : Savepoint :=
  { seq := 1,
    node := .rt { snapshot := wEngine,
                  actions := [{ ttype := .domain, op := .add, data := .tokenKey [4] }] } }

/-- Companion runtime savepoint for the squash witness. -/
def wRtSpB : Savepoint :=
  { seq := 2,
    node := .rt { snapshot := wEngine,
                  actions := [{ ttype := .domain, op := .update, data := .tokenKey [5] }] } }

/-- A persistent-form savepoint used by witnesses. -/
def wPdSp : Savepoint :=
  { seq := 2, node := .pd { seq := 2, actions := [] } }

/-- A concrete object value for the action type `S` of `cenv`: the base
field `b`, then `S`'s own fields `x`, `ys`, `o` in declaration order. -/
def wActFlds : List (String × Value) :=
  [("b", .vnum 2), ("x", .vnum 7), ("ys", .varr [.vnum 1, .vnum 3]), ("o", .vnull)]

/-- The object variant built from `wActFlds`. -/
def wActVal : Value := .vobj wActFlds

/-- The object value an optional-over-struct decode produces in
`cenvOptStruct`. -/
def wOptStructVal : Value := .vobj [("f", .vobj [("x", .vnum 5)])]

/-! ## Helper lemmas: byte codecs -/

theorem unpack_packVarintGo :
    ∀ f n rest, n < f → unpackVarint (packVarintGo f n ++ rest) = some (n, rest) := by
  intro f
  induction f with
  | zero => intro n rest h; omega
  | succ f ih =>
    intro n rest h
    by_cases h128 : n < 128
    · simp [packVarintGo, h128, unpackVarint]
    · have hlt : n / 128 < f := by omega
      have hrec := ih (n / 128) rest hlt
      simp only [packVarintGo, if_neg h128, List.cons_append, unpackVarint, hrec]
      have hb : ¬(n % 128 + 128 < 128) := by omega
      simp only [if_neg hb]
      have hv : n / 128 * 128 + (n % 128 + 128 - 128) = n := by omega
      rw [hv]

theorem unpack_packVarint (n : Nat) (rest : Bytes) :
    unpackVarint (packVarint n ++ rest) = some (n, rest) :=
  unpack_packVarintGo (n + 1) n rest (by omega)

theorem unpack_packLE :
    ∀ w n rest, n < 256 ^ w → unpackLE w (packLE w n ++ rest) = some (n, rest) := by
  intro w
  induction w with
  | zero => intro n rest h; simp at h; simp [packLE, unpackLE, h]
  | succ w ih =>
    intro n rest h
    have hdiv : n / 256 < 256 ^ w := by
      rw [Nat.div_lt_iff_lt_mul (by norm_num)]
      calc n < 256 ^ (w + 1) := h
        _ = 256 ^ w * 256 := by ring
    simp only [packLE, List.cons_append, unpackLE, List.append_eq, ih (n / 256) rest hdiv]
    have hv : n / 256 * 256 + n % 256 = n := by omega
    rw [hv]

theorem unpack_packStr (s : Bytes) (rest : Bytes) :
    unpackStr (packStr s ++ rest) = some (s, rest) := by
  simp only [packStr, unpackStr, List.append_assoc, unpack_packVarint]
  simp

theorem unpack_packI64 (z : Int) (rest : Bytes)
    (hlo : -(2 : Int) ^ 63 ≤ z) (hhi : z < 2 ^ 63) :
    unpackI64 (packI64 z ++ rest) = some (z, rest) := by
  have h64 : ((2 : Int) ^ 64) = 18446744073709551616 := by norm_num
  have h63 : ((2 : Int) ^ 63) = 9223372036854775808 := by norm_num
  have hval : z % 2 ^ 64 = if 0 ≤ z then z else z + 2 ^ 64 := by
    rw [h64] at *
    split <;> omega
  have hnat : (z % 2 ^ 64).toNat < 256 ^ 8 := by
    have h8 : (256 : Nat) ^ 8 = 2 ^ 64 := by norm_num
    rw [h8, hval]
    rw [h64, h63] at *
    split <;> omega
  simp only [packI64, unpackI64, unpack_packLE _ _ _ hnat]
  rcases le_or_lt 0 z with hz | hz
  · have hlt : (z % 2 ^ 64).toNat < 2 ^ 63 := by
      rw [hval, if_pos hz]
      rw [h63] at *
      omega
    simp only [if_pos hlt]
    have hzz : ((z % 2 ^ 64).toNat : Int) = z := by
      rw [hval, if_pos hz]
      omega
    rw [hzz]
  · have hge : ¬((z % 2 ^ 64).toNat < 2 ^ 63) := by
      rw [hval, if_neg (by omega)]
      rw [h63, h64] at *
      omega
    simp only [if_neg hge]
    have hzz : ((z % 2 ^ 64).toNat : Int) - 2 ^ 64 = z := by
      rw [hval, if_neg (by omega)]
      rw [h63, h64] at *
      omega
    rw [hzz]

theorem unpack_packPdAction (a : PdAction) (rest : Bytes)
    (hop : a.op < 2 ^ 16) (hty : a.ptype < 2 ^ 16) :
    unpackPdAction (packPdAction a ++ rest) = some (a, rest) := by
  have h16 : (256 : Nat) ^ 2 = 2 ^ 16 := by norm_num
  have h1 : ∀ r, unpackLE 2 (packLE 2 a.op ++ r) = some (a.op, r) :=
    fun r => unpack_packLE 2 a.op r (by omega)
  have h2 : ∀ r, unpackLE 2 (packLE 2 a.ptype ++ r) = some (a.ptype, r) :=
    fun r => unpack_packLE 2 a.ptype r (by omega)
  simp only [packPdAction, unpackPdAction, List.append_assoc, h1, h2, unpack_packStr]

theorem unpackN_flatten {α : Type} (unpacker : Bytes → Option (α × Bytes))
    (packer : α → Bytes) :
    ∀ (xs : List α) (rest : Bytes),
      (∀ x ∈ xs, ∀ r, unpacker (packer x ++ r) = some (x, r)) →
      unpackN unpacker xs.length ((xs.map packer).flatten ++ rest) = some (xs, rest) := by
  intro xs
  induction xs with
  | nil => intro rest h; simp [unpackN]
  | cons x xs ih =>
    intro rest h
    simp only [List.map_cons, List.flatten_cons, List.length_cons, unpackN,
      List.append_assoc, h x (by simp)]
    rw [ih rest (fun y hy r => h y (by simp [hy]) r)]

theorem unpack_packVec {α : Type} (unpacker : Bytes → Option (α × Bytes))
    (packer : α → Bytes) (xs : List α) (rest : Bytes)
    (h : ∀ x ∈ xs, ∀ r, unpacker (packer x ++ r) = some (x, r)) :
    unpackVec unpacker (packVec packer xs ++ rest) = some (xs, rest) := by
  simp only [packVec, unpackVec, List.append_assoc, unpack_packVarint]
  exact unpackN_flatten unpacker packer xs rest h

theorem unpack_packPdGroup (g : PdGroup) (rest : Bytes)
    (hlo : -(2 : Int) ^ 63 ≤ g.seq) (hhi : g.seq < 2 ^ 63)
    (hacts : ∀ a ∈ g.actions, a.op < 2 ^ 16 ∧ a.ptype < 2 ^ 16) :
    unpackPdGroup (packPdGroup g ++ rest) = some (g, rest) := by
  have h1 : ∀ r, unpackI64 (packI64 g.seq ++ r) = some (g.seq, r) :=
    fun r => unpack_packI64 g.seq r hlo hhi
  have h2 : ∀ r, unpackVec unpackPdAction (packVec packPdAction g.actions ++ r) =
      some (g.actions, r) :=
    fun r => unpack_packVec unpackPdAction packPdAction g.actions r
      (fun a ha rr => unpack_packPdAction a rr (hacts a ha).1 (hacts a ha).2)
  simp only [packPdGroup, unpackPdGroup, List.append_assoc, h1, h2]

/-! ## C5: persistence protocol -/

/-- C5: `persist_savepoints` first writes a header with dirty flag 1,
then the serialized savepoint list, then seeks back and rewrites the
header with dirty flag 0; `load_savepoints` rejects a non-zero dirty
flag with a dirty-flag failure loading nothing, and loads a clean file
entirely as persistent-form savepoints preserving each sequence
number. -/
theorem C5_persistence_protocol (s : DbState) (pds : List PdGroup)
    (hm : persistAllSavepoints s = .ok pds) (hwf : WfPdGroups pds) :
    (persistStreamMid s =
        .ok { buf := packHeader 1 ++ packVec packPdGroup pds,
              pos := 4 + (packVec packPdGroup pds).length }
      ∧ persistStream s =
        .ok { buf := packHeader 0 ++ packVec packPdGroup pds, pos := 4 }
      ∧ loadSavepointsStream (packHeader 0 ++ packVec packPdGroup pds)
        = .ok (pds.map (fun g => { seq := g.seq, node := .pd g })))
    ∧ (∀ d rest, d ≠ 0 → d < 2 ^ 32 →
        loadSavepointsStream (packLE 4 d ++ rest) = .error .dirtyFlag) := by
  have hmid : persistStreamMid s =
      .ok { buf := packHeader 1 ++ packVec packPdGroup pds,
            pos := 4 + (packVec packPdGroup pds).length } := by
    simp only [persistStreamMid, hm, Except.bind, bind, osWrite, packHeader]
    norm_num [packLE, List.take, List.drop]
  refine ⟨⟨hmid, ?_, ?_⟩, ?_⟩
  · simp only [persistStream, hmid, Except.bind, bind, osWrite, packHeader]
    norm_num [packLE, List.take, List.drop]
  · have h0 : (0 : Nat) < 256 ^ 4 := by norm_num
    have hhd : ∀ r, unpackLE 4 (packLE 4 0 ++ r) = some (0, r) :=
      fun r => unpack_packLE 4 0 r h0
    have hb : unpackVec unpackPdGroup (packVec packPdGroup pds ++ []) = some (pds, []) :=
      unpack_packVec unpackPdGroup packPdGroup pds []
        (fun g hg r => unpack_packPdGroup g r (hwf g hg).1 (hwf g hg).2.1 (hwf g hg).2.2)
    rw [List.append_nil] at hb
    simp only [loadSavepointsStream, packHeader, hhd, hb]
    simp
  · intro d rest hd hlt
    have : d < 256 ^ 4 := by norm_num; omega
    have hhd := unpack_packLE 4 d rest this
    simp only [loadSavepointsStream, hhd]
    simp [hd]


theorem C5_persistence_protocol_witness :
    persistStreamMid wStack5 =
      .ok { buf := packHeader 1 ++ packVec packPdGroup wPds5,
            pos := 4 + (packVec packPdGroup wPds5).length }
    ∧ persistStream wStack5 =
      .ok { buf := packHeader 0 ++ packVec packPdGroup wPds5, pos := 4 }
    ∧ loadSavepointsStream (packHeader 0 ++ packVec packPdGroup wPds5)
      = .ok (wPds5.map (fun g => { seq := g.seq, node := .pd g })) :=
  (C5_persistence_protocol wStack5 wPds5 (by rfl) (by decide)).1



/-! ## C4: savepoint sequence ordering -/

theorem addSavepoint_ok_shape (s : DbState) (q : Int) (s2 : DbState)
    (h : addSavepoint s q = .ok s2) :
    s2 = { s with savepoints := s.savepoints ++
      [{ seq := q, node := .rt { snapshot := s.engine, actions := [] } }] } ∧
    (∀ top, s.savepoints.getLast? = some top → top.seq < q) := by
  cases hl : s.savepoints.getLast? with
  | none =>
    simp only [addSavepoint, hl, Except.ok.injEq] at h
    refine ⟨h.symm, ?_⟩
    intro top htop
    cases htop
  | some b =>
    simp only [addSavepoint, hl] at h
    by_cases hge : b.seq ≥ q
    · rw [if_pos hge] at h; cases h
    · rw [if_neg hge] at h
      simp only [Except.ok.injEq] at h
      refine ⟨h.symm, ?_⟩
      intro top htop
      injection htop with he
      subst he
      omega

theorem addSavepoint_sorted (s : DbState) (q : Int) (s2 : DbState)
    (hs : SeqSorted s.savepoints) (h : addSavepoint s q = .ok s2) :
    SeqSorted s2.savepoints := by
  obtain ⟨rfl, hlt⟩ := addSavepoint_ok_shape s q s2 h
  refine List.chain'_append.2 ⟨hs, List.chain'_singleton _, ?_⟩
  intro x hx y hy
  simp only [List.head?_cons, Option.mem_def, Option.some.injEq] at hy
  subst hy
  exact hlt x hx

theorem applyAddSavepoints_sorted (s0 : DbState) (qs : List Int)
    (h0 : SeqSorted s0.savepoints) :
    SeqSorted (applyAddSavepoints s0 qs).savepoints := by
  induction qs generalizing s0 with
  | nil => exact h0
  | cons q rest ih =>
    unfold applyAddSavepoints
    cases h : addSavepoint s0 q with
    | error e => exact ih s0 h0
    | ok s2 => exact ih s2 (addSavepoint_sorted s0 q s2 h0 h)

/-- C4: `add_savepoint(seq)` fails with seq-not-valid exactly when the
stack is non-empty and `seq` does not exceed the top savepoint\'s
sequence; otherwise it pushes a new empty runtime savepoint over a
fresh snapshot of the current engine; and after any sequence of
`add_savepoint` calls starting from a strictly increasing stack (in
particular the empty one) the stack sequences remain strictly
increasing. -/
theorem C4_savepoint_sequences (s : DbState) (seq : Int) (s0 : DbState) (qs : List Int)
    (h0 : SeqSorted s0.savepoints) :
    (addSavepoint s seq = .error .seqNotValid ↔
      ∃ top, s.savepoints.getLast? = some top ∧ seq ≤ top.seq)
    ∧ ((∀ top, s.savepoints.getLast? = some top → top.seq < seq) →
        addSavepoint s seq = .ok { s with savepoints := s.savepoints ++
          [{ seq := seq, node := .rt { snapshot := s.engine, actions := [] } }] })
    ∧ SeqSorted (applyAddSavepoints s0 qs).savepoints := by
  refine ⟨?_, ?_, applyAddSavepoints_sorted s0 qs h0⟩
  · cases hl : s.savepoints.getLast? with
    | none =>
      simp only [addSavepoint, hl]
      constructor
      · intro h; cases h
      · rintro ⟨top, htop, _⟩; cases htop
    | some b =>
      simp only [addSavepoint, hl]
      by_cases hge : b.seq ≥ seq
      · rw [if_pos hge]
        exact ⟨fun _ => ⟨b, rfl, by omega⟩, fun _ => rfl⟩
      · rw [if_neg hge]
        constructor
        · intro h; cases h
        · rintro ⟨top, htop, hle⟩
          injection htop with he
          subst he
          omega
  · intro hlt
    cases hl : s.savepoints.getLast? with
    | none => simp only [addSavepoint, hl]
    | some b =>
      have := hlt b hl
      simp only [addSavepoint, hl]
      rw [if_neg (by omega)]

theorem C4_savepoint_sequences_witness :
    (addSavepoint wStack5 3 = .error .seqNotValid ↔
      ∃ top, wStack5.savepoints.getLast? = some top ∧ (3 : Int) ≤ top.seq)
    ∧ ((∀ top, wStack5.savepoints.getLast? = some top → top.seq < 3) →
        addSavepoint wStack5 3 = .ok { wStack5 with savepoints := wStack5.savepoints ++
          [{ seq := 3, node := .rt { snapshot := wStack5.engine, actions := [] } }] })
    ∧ SeqSorted (applyAddSavepoints { engine := wEngine, savepoints := [] }
        [1, 5, 2, 7]).savepoints :=
  C4_savepoint_sequences wStack5 3 { engine := wEngine, savepoints := [] } [1, 5, 2, 7]
    (by simp [SeqSorted])

/-! ## C8: squash -/

/-- C8: `squash` fails with the squash-precondition error when the stack
holds fewer than two savepoints or either of the top two savepoints is
not a runtime group; otherwise it appends the top group's actions, in
order, to the end of the group below, keeps the lower group's snapshot,
pops the top savepoint and leaves the engine untouched. -/
theorem C8_squash :
    (∀ s : DbState, s.savepoints.length < 2 → squash s = .error .squashPre)
    ∧ (∀ (s : DbState) top gp, s.savepoints.getLast? = some top →
        top.node = .pd gp → squash s = .error .squashPre)
    ∧ (∀ (s : DbState) top lower gp, s.savepoints.getLast? = some top →
        s.savepoints.dropLast.getLast? = some lower →
        lower.node = .pd gp → squash s = .error .squashPre)
    ∧ (∀ (s : DbState) pre lowSp topSp g2 g1,
        s.savepoints = pre ++ [lowSp, topSp] →
        lowSp.node = .rt g2 → topSp.node = .rt g1 →
        squash s = .ok { engine := s.engine, savepoints := pre ++
          [{ seq := lowSp.seq,
             node := .rt { snapshot := g2.snapshot,
                           actions := g2.actions ++ g1.actions } }] }) := by
  refine ⟨?_, ?_, ?_, ?_⟩
  · intro s h
    simp only [squash, if_pos h]
  · intro s top gp hl hn
    by_cases hlen : s.savepoints.length < 2
    · simp only [squash, if_pos hlen]
    · simp only [squash, if_neg hlen, hl, hn]
  · intro s top lower gp hl hll hn
    by_cases hlen : s.savepoints.length < 2
    · simp only [squash, if_pos hlen]
    · cases htn : top.node with
      | pd g => simp only [squash, if_neg hlen, hl, htn]
      | rt g1 => simp only [squash, if_neg hlen, hl, htn, hll, hn]
  · intro s pre lowSp topSp g2 g1 hs hlow htop
    have hlen : ¬(s.savepoints.length < 2) := by
      rw [hs]
      simp
    have h1 : s.savepoints.getLast? = some topSp := by
      rw [hs, show pre ++ [lowSp, topSp] = (pre ++ [lowSp]) ++ [topSp] by simp,
        List.getLast?_concat]
    have h2 : s.savepoints.dropLast = pre ++ [lowSp] := by
      rw [hs, show pre ++ [lowSp, topSp] = (pre ++ [lowSp]) ++ [topSp] by simp,
        List.dropLast_concat]
    have h3 : (pre ++ [lowSp]).getLast? = some lowSp := List.getLast?_concat _
    simp only [squash, if_neg hlen, h1, htop, h2, h3, hlow, List.dropLast_concat]


theorem C8_squash_witness :
    squash { engine := wEngine, savepoints := [] } = .error .squashPre
    ∧ squash { engine := wEngine, savepoints := [wRtSpA, wPdSp] } = .error .squashPre
    ∧ squash { engine := wEngine, savepoints := [wRtSpA, wRtSpB] }
      = .ok { engine := wEngine, savepoints :=
          [{ seq := 1,
             node := .rt { snapshot := wEngine,
                           actions := [{ ttype := .domain, op := .add, data := .tokenKey [4] },
                                       { ttype := .domain, op := .update, data := .tokenKey [5] }] } }] } := by
  refine ⟨C8_squash.1 _ (by decide),
    C8_squash.2.1 _ wPdSp { seq := 2, actions := [] } rfl rfl, ?_⟩
  exact C8_squash.2.2.2 _ [] wRtSpA wRtSpB _ _ rfl rfl rfl

/-! ## C7: key byte layouts -/

/-- C7 (amended): token keys are exactly 32 bytes with the 16-byte
prefix first — matching the tokens family's 16-byte fixed-prefix
extractor, so a 16-byte prefix seek selects exactly the keys under that
prefix (fixed width makes the key injective in (prefix, key)); asset
keys are exactly `sizeof(symbol) + 33` bytes, but they place the symbol
bytes first and the 33-byte address last, while the Assets family's
fixed-prefix extractor is configured to the 33-byte address length. -/
theorem C7_key_layout (p k sym addr : Bytes)
    (hp : p.length = 16) (hk : k.length = 16)
    (hs : sym.length = kSymbolSize) (ha : addr.length = kPublicKeySize) :
    (dbTokenKey p k).length = 32
    ∧ (dbTokenKey p k).take tokensPfxExtractorLen = p
    ∧ tokensPfxExtractorLen = 16
    ∧ (∀ p2 k2 : Bytes, p2.length = 16 → dbTokenKey p k = dbTokenKey p2 k2 →
        p = p2 ∧ k = k2)
    ∧ (dbAssetKey sym addr).length = kSymbolSize + 33
    ∧ (dbAssetKey sym addr).take kSymbolSize = sym
    ∧ (dbAssetKey sym addr).drop kSymbolSize = addr
    ∧ assetsPfxExtractorLen = 33 := by
  refine ⟨?_, ?_, rfl, ?_, ?_, ?_, ?_, rfl⟩
  · simp [dbTokenKey, hp, hk]
  · rw [show tokensPfxExtractorLen = p.length by rw [hp]; rfl]
    simp [dbTokenKey]
  · intro p2 k2 hp2 he
    exact List.append_inj he (by omega)
  · simp [dbAssetKey, kPublicKeySize] at *
    omega
  · rw [show kSymbolSize = sym.length by rw [hs]]
    simp [dbAssetKey]
  · rw [show kSymbolSize = sym.length by rw [hs]]
    simp [dbAssetKey]

theorem C7_key_layout_witness :
    (dbTokenKey (List.replicate 16 3) (List.replicate 16 4)).length = 32
    ∧ (dbTokenKey (List.replicate 16 3) (List.replicate 16 4)).take tokensPfxExtractorLen
      = List.replicate 16 3
    ∧ tokensPfxExtractorLen = 16
    ∧ (∀ p2 k2 : Bytes, p2.length = 16 →
        dbTokenKey (List.replicate 16 3) (List.replicate 16 4) = dbTokenKey p2 k2 →
        List.replicate 16 3 = p2 ∧ List.replicate 16 4 = k2)
    ∧ (dbAssetKey (List.replicate 8 1) (List.replicate 33 2)).length = kSymbolSize + 33
    ∧ (dbAssetKey (List.replicate 8 1) (List.replicate 33 2)).take kSymbolSize
      = List.replicate 8 1
    ∧ (dbAssetKey (List.replicate 8 1) (List.replicate 33 2)).drop kSymbolSize
      = List.replicate 33 2
    ∧ assetsPfxExtractorLen = 33 :=
  C7_key_layout (List.replicate 16 3) (List.replicate 16 4)
    (List.replicate 8 1) (List.replicate 33 2) (by decide) (by decide) (by decide) (by decide)

/-- C7 counterexample: the asset key does not start with the 33-byte
address (the claimed seek prefix); the address is the trailing part
instead. -/
theorem C7_key_layout_cex :
    (dbAssetKey (List.replicate kSymbolSize 1) (List.replicate 33 2)).take assetsPfxExtractorLen
      ≠ List.replicate 33 2
    ∧ (dbAssetKey (List.replicate kSymbolSize 1) (List.replicate 33 2)).drop kSymbolSize
      = List.replicate 33 2 := by decide

/-! ## C10: token_database_cache::put_token -/

/-- C10: `put_token` on the cache asserts that no entry exists for the
(type, domain, key) cache key — a hit fails before any effect is
performed — and on a miss it first writes the serialized value through
to the token database and only then inserts the deserialized entry into
the cache, as witnessed by the emitted effect order. -/
theorem C10_cache_put_token {V : Type} (ser : V → Bytes) (cache : List (Bytes × V))
    (db : DbState) (t : TokenType) (op : ActionOp) (domain : Option Name128)
    (key : Name128) (v : V) :
    ((lookupA cache (cacheKeyBytes t domain key)).isSome →
      cachePutToken ser cache db t op domain key v = (.error .assertFail, []))
    ∧ (lookupA cache (cacheKeyBytes t domain key) = none →
      ∀ db2, putToken db t op domain key (ser v) = .ok db2 →
        cachePutToken ser cache db t op domain key v =
          (.ok (insertA cache (cacheKeyBytes t domain key) v, db2),
           [.dbWrite (ser v), .cacheIns (cacheKeyBytes t domain key)])) := by
  constructor
  · intro h
    simp only [cachePutToken, if_pos h]
  · intro h db2 hdb
    simp only [cachePutToken, h, Option.isSome_none, Bool.false_eq_true, if_false, hdb]


theorem C10_cache_put_token_witness :
    cachePutToken (fun b => b)
        [(cacheKeyBytes TokenType.domain (some [1]) [2], ([7] : Bytes))]
        { engine := wEngine, savepoints := [] }
        TokenType.domain ActionOp.add (some [1]) [2] [9] = (.error .assertFail, [])
    ∧ cachePutToken (fun b => b) []
        { engine := wEngine, savepoints := [] }
        TokenType.domain ActionOp.add (some [1]) [2] [9] =
        (.ok ([(cacheKeyBytes TokenType.domain (some [1]) [2], [9])],
              { engine := { tokens := [([1], [2]), ([1, 2], [9])], assets := [] },
                savepoints := [] }),
         [.dbWrite [9], .cacheIns (cacheKeyBytes TokenType.domain (some [1]) [2])]) := by
  constructor
  · exact (C10_cache_put_token (fun b => b)
      [(cacheKeyBytes TokenType.domain (some [1]) [2], ([7] : Bytes))]
      { engine := wEngine, savepoints := [] }
      TokenType.domain ActionOp.add (some [1]) [2] [9]).1 (by decide)
  · exact (C10_cache_put_token (fun b => b) []
      { engine := wEngine, savepoints := [] }
      TokenType.domain ActionOp.add (some [1]) [2] [9]).2 (by decide) _ rfl

/-! ## C9: unknown types in the serializer -/

theorem fundamentalType_id (t : String) (harr : arrQ t = false) (hopt : optQ t = false) :
    fundamentalType t = t := by
  simp [fundamentalType, harr, hopt]

/-- C9 (amended): for an undecorated type name that is not a typedef,
not a built-in and not a struct, `binary_to_variant` fails on every
input and the recursive `variant_to_binary` encoder fails on every
value; `is_type` reports false for it — but the public
`variant_to_binary` overload checks `is_type` first and, on failure,
returns the variant converted with `var.as<bytes>()` instead of
failing. -/
theorem C9_unknown_type (env : AbiEnv) (t : String)
    (harr : arrQ t = false) (hopt : optQ t = false)
    (htd : lookupA env.typedefs t = none)
    (hb : lookupA env.builtins t = none)
    (hst : lookupA env.structs t = none) :
    (∀ f bs, b2v env f t bs = none)
    ∧ (∀ f v, v2b env f t v = none)
    ∧ (∀ f, isType env (f + 1) t = some false)
    ∧ (∀ f v, variantToBinaryTop env (f + 1) t v = vAsBytes v) := by
  have hft : fundamentalType t = t := fundamentalType_id t harr hopt
  have hdec : (∀ f bs, b2v env f t bs = none) := by
    intro f bs
    cases f with
    | zero => rfl
    | succ g =>
      have hres : resolveType env g t = none ∨ resolveType env g t = some t := by
        cases g with
        | zero => left; rfl
        | succ g2 => right; simp [resolveType, htd]
      rcases hres with h | h
      · simp [b2v, b2vAux, h]
      · simp [b2v, b2vAux, h, hft, hb, harr, hopt, hst]
  have henc : (∀ f v, v2b env f t v = none) := by
    intro f v
    cases f with
    | zero => rfl
    | succ g =>
      have hres : resolveType env g t = none ∨ resolveType env g t = some t := by
        cases g with
        | zero => left; rfl
        | succ g2 => right; simp [resolveType, htd]
      rcases hres with h | h
      · simp [v2b, v2bAux, h]
      · simp [v2b, v2bAux, h, hft, hb, harr, hopt, hst]
  have hit : (∀ f, isType env (f + 1) t = some false) := by
    intro f
    simp [isType, hft, hb, htd, hst]
  refine ⟨hdec, henc, hit, ?_⟩
  intro f v
  simp [variantToBinaryTop, hit f]

theorem C9_unknown_type_witness :
    (∀ f bs, b2v cenvOptStruct f "X" bs = none)
    ∧ (∀ f v, v2b cenvOptStruct f "X" v = none)
    ∧ (∀ f, isType cenvOptStruct (f + 1) "X" = some false)
    ∧ (∀ f v, variantToBinaryTop cenvOptStruct (f + 1) "X" v = vAsBytes v) :=
  C9_unknown_type cenvOptStruct "X" (by decide) (by decide) (by decide) rfl rfl

/-- C9 counterexample: on an unknown type the public `variant_to_binary`
overload produces bytes (the variant reinterpreted via `as<bytes>`)
instead of failing, and `binary_to_variant` on an optional decorator
over an unknown fundamental type succeeds on a zero flag byte. -/
theorem C9_unknown_type_cex :
    variantToBinaryTop cenvOptStruct 5 "X" (Value.vbytes [1, 2, 3]) = some [1, 2, 3]
    ∧ b2v cenvOptStruct 5 "X?" [0] = some (.vnull, []) :=
  ⟨rfl, rfl⟩

/-! ## Rollback scan lemmas (C1, C3) -/

theorem rtRollbackTriples_append (snap : Snapshot) :
    ∀ xs ys st, rtRollbackTriples snap (xs ++ ys) st =
      match rtRollbackTriples snap xs st with
      | .error e => .error e
      | .ok st2 => rtRollbackTriples snap ys st2 := by
  intro xs
  induction xs with
  | nil => intro ys st; rfl
  | cons x rest ih =>
    intro ys st
    obtain ⟨tt, op, k⟩ := x
    simp only [List.cons_append, rtRollbackTriples]
    cases rtRollbackStep snap tt op st k with
    | error e => rfl
    | ok st2 => exact ih ys st2

theorem rtRollbackKeys_eq_triples (snap : Snapshot) (tt : TokenType) (op : ActionOp) :
    ∀ ks st, rtRollbackKeys snap tt op ks st =
      rtRollbackTriples snap (ks.map (fun k => (tt, op, k))) st := by
  intro ks
  induction ks with
  | nil => intro st; rfl
  | cons k rest ih =>
    intro st
    simp only [rtRollbackKeys, List.map_cons, rtRollbackTriples]
    cases rtRollbackStep snap tt op st k with
    | error e => rfl
    | ok st2 => exact ih st2

theorem rtRollbackActions_eq_triples (snap : Snapshot) :
    ∀ as st, rtRollbackActions snap as st =
      rtRollbackTriples snap (triplesOfActions as) st := by
  intro as
  induction as with
  | nil => intro st; rfl
  | cons a rest ih =>
    intro st
    simp only [rtRollbackActions, rtRollbackAction, triplesOfActions, List.flatMap_cons,
      rtRollbackTriples_append, rtRollbackKeys_eq_triples]
    cases rtRollbackTriples snap ((keysOfAction a).map (fun k => (a.ttype, a.op, k))) st with
    | error e => rfl
    | ok st2 =>
      simpa [triplesOfActions] using ih st2

theorem triplesOfActions_keys (as : List RtAction) :
    (triplesOfActions as).map (fun x => x.2.2) = keysOfActions as := by
  induction as with
  | nil => rfl
  | cons a rest ih =>
    simp only [triplesOfActions, keysOfActions, List.flatMap_cons, List.map_append] at *
    rw [ih]
    congr 1
    simp only [List.map_map]
    exact List.map_id (keysOfAction a)

theorem mem_triplesOfActions {x : TokenType × ActionOp × Bytes} {as : List RtAction}
    (h : x ∈ triplesOfActions as) :
    ∃ a ∈ as, a.ttype = x.1 ∧ a.op = x.2.1 ∧ x.2.2 ∈ keysOfAction a := by
  simp only [triplesOfActions, List.mem_flatMap, List.mem_map] at h
  obtain ⟨a, ha, k, hk, rfl⟩ := h
  exact ⟨a, ha, rfl, rfl, hk⟩

theorem applyBatch_cons (e : Engine) (b : BatchOp) (ops : List BatchOp) :
    applyBatch e (b :: ops) = applyBatch (applyBatch e [b]) ops := by
  cases b <;> rfl

/-! ## C1: rollback applies the inverse operations -/

theorem rtTriples_spec (snap : Snapshot) :
    ∀ (trips : List (TokenType × ActionOp × Bytes)) (ks : List Bytes) (batch : List BatchOp),
      (trips.map (fun x => x.2.2)).Nodup →
      (∀ x ∈ trips, x.2.2 ∉ ks) →
      (∀ x ∈ trips, x.2.1 ≠ ActionOp.delete) →
      (∀ x ∈ trips, x.2.1 = ActionOp.update → (lookupA snap.tokens x.2.2).isSome) →
      ∃ ks2 ops, rtRollbackTriples snap trips (ks, batch) = .ok (ks2, batch ++ ops)
        ∧ ∀ e, applyBatch e ops = trips.foldl (specInverseStep snap) e := by
  intro trips
  induction trips with
  | nil =>
    intro ks batch _ _ _ _
    exact ⟨ks, [], by simp [rtRollbackTriples], fun e => rfl⟩
  | cons x rest ih =>
    intro ks batch hnd hks hdel hupd
    obtain ⟨tt, op, k⟩ := x
    have hkks : k ∉ ks := hks (tt, op, k) (by simp)
    have hndk : k ∉ rest.map (fun x => x.2.2) := by
      simp only [List.map_cons, List.nodup_cons] at hnd
      exact hnd.1
    have hnd2 : (rest.map (fun x => x.2.2)).Nodup := by
      simp only [List.map_cons, List.nodup_cons] at hnd
      exact hnd.2
    have hks2 : ∀ x ∈ rest, x.2.2 ∉ k :: ks := by
      intro x hx
      simp only [List.mem_cons]
      push_neg
      constructor
      · intro he
        exact hndk (by rw [← he]; exact List.mem_map_of_mem _ hx)
      · exact hks x (by simp [hx])
    have hdel2 : ∀ x ∈ rest, x.2.1 ≠ ActionOp.delete := fun x hx => hdel x (by simp [hx])
    have hupd2 : ∀ x ∈ rest, x.2.1 = ActionOp.update → (lookupA snap.tokens x.2.2).isSome :=
      fun x hx => hupd x (by simp [hx])
    have step :
        ∃ b, rtRollbackStep snap tt op (ks, batch) k = .ok (k :: ks, batch ++ [b])
          ∧ ∀ e, applyBatch e [b] = specInverseStep snap e (tt, op, k) := by
      cases op with
      | add =>
        refine ⟨.delTok k, ?_, fun e => rfl⟩
        simp [rtRollbackStep, hkks]
      | update =>
        have := hupd (tt, .update, k) (by simp) rfl
        obtain ⟨old, hold⟩ := Option.isSome_iff_exists.1 this
        refine ⟨.putTok k old, ?_, fun e => ?_⟩
        · simp [rtRollbackStep, hkks, hold]
        · simp [applyBatch, specInverseStep, hold]
      | put =>
        cases htt : tt with
        | asset =>
          cases hold : lookupA snap.assets k with
          | none =>
            refine ⟨.delAst k, ?_, fun e => ?_⟩
            · simp [rtRollbackStep, hkks, hold]
            · simp [applyBatch, specInverseStep, hold]
          | some old =>
            refine ⟨.putAst k old, ?_, fun e => ?_⟩
            · simp [rtRollbackStep, hkks, hold]
            · simp [applyBatch, specInverseStep, hold]
        | domain =>
          cases hold : lookupA snap.tokens k with
          | none =>
            refine ⟨.delTok k, by simp [rtRollbackStep, hkks, hold], fun e => by
              simp [applyBatch, specInverseStep, hold]⟩
          | some old =>
            refine ⟨.putTok k old, by simp [rtRollbackStep, hkks, hold], fun e => by
              simp [applyBatch, specInverseStep, hold]⟩
        | token =>
          cases hold : lookupA snap.tokens k with
          | none =>
            refine ⟨.delTok k, by simp [rtRollbackStep, hkks, hold], fun e => by
              simp [applyBatch, specInverseStep, hold]⟩
          | some old =>
            refine ⟨.putTok k old, by simp [rtRollbackStep, hkks, hold], fun e => by
              simp [applyBatch, specInverseStep, hold]⟩
        | group =>
          cases hold : lookupA snap.tokens k with
          | none =>
            refine ⟨.delTok k, by simp [rtRollbackStep, hkks, hold], fun e => by
              simp [applyBatch, specInverseStep, hold]⟩
          | some old =>
            refine ⟨.putTok k old, by simp [rtRollbackStep, hkks, hold], fun e => by
              simp [applyBatch, specInverseStep, hold]⟩
        | suspend =>
          cases hold : lookupA snap.tokens k with
          | none =>
            refine ⟨.delTok k, by simp [rtRollbackStep, hkks, hold], fun e => by
              simp [applyBatch, specInverseStep, hold]⟩
          | some old =>
            refine ⟨.putTok k old, by simp [rtRollbackStep, hkks, hold], fun e => by
              simp [applyBatch, specInverseStep, hold]⟩
        | lock =>
          cases hold : lookupA snap.tokens k with
          | none =>
            refine ⟨.delTok k, by simp [rtRollbackStep, hkks, hold], fun e => by
              simp [applyBatch, specInverseStep, hold]⟩
          | some old =>
            refine ⟨.putTok k old, by simp [rtRollbackStep, hkks, hold], fun e => by
              simp [applyBatch, specInverseStep, hold]⟩
        | fungible =>
          cases hold : lookupA snap.tokens k with
          | none =>
            refine ⟨.delTok k, by simp [rtRollbackStep, hkks, hold], fun e => by
              simp [applyBatch, specInverseStep, hold]⟩
          | some old =>
            refine ⟨.putTok k old, by simp [rtRollbackStep, hkks, hold], fun e => by
              simp [applyBatch, specInverseStep, hold]⟩
        | prodvote =>
          cases hold : lookupA snap.tokens k with
          | none =>
            refine ⟨.delTok k, by simp [rtRollbackStep, hkks, hold], fun e => by
              simp [applyBatch, specInverseStep, hold]⟩
          | some old =>
            refine ⟨.putTok k old, by simp [rtRollbackStep, hkks, hold], fun e => by
              simp [applyBatch, specInverseStep, hold]⟩
        | evtlink =>
          cases hold : lookupA snap.tokens k with
          | none =>
            refine ⟨.delTok k, by simp [rtRollbackStep, hkks, hold], fun e => by
              simp [applyBatch, specInverseStep, hold]⟩
          | some old =>
            refine ⟨.putTok k old, by simp [rtRollbackStep, hkks, hold], fun e => by
              simp [applyBatch, specInverseStep, hold]⟩
      | delete => exact absurd rfl (hdel (tt, .delete, k) (by simp))
    obtain ⟨b, hstep, hb⟩ := step
    obtain ⟨ks2, ops, heq, happ⟩ := ih (k :: ks) (batch ++ [b]) hnd2 hks2 hdel2 hupd2
    refine ⟨ks2, b :: ops, ?_, ?_⟩
    · simp only [rtRollbackTriples, hstep, heq]
      rw [List.append_assoc]
      rfl
    · intro e
      rw [applyBatch_cons, happ, hb]
      rfl

/-- C1 (amended): for a top runtime savepoint whose recorded keys are
pairwise distinct (the multi-touch case is governed by the dedup rule),
whose update pre-images exist in the held snapshot, and which records no
`delete` op (rollback has no inverse for `delete`: both rollback paths
fault on it), `rollback_to_latest_savepoint` applies, for each recorded
action in forward order, the inverse operation — `add` deletes the key,
`update` puts back the snapshot's old value, `put` puts back the old
value when present in the snapshot and deletes the key otherwise — and
then pops the savepoint. -/
theorem C1_rollback_inverse (e : Engine) (pre : List Savepoint) (sq : Int)
    (snap : Snapshot) (as : List RtAction)
    (hnd : (keysOfActions as).Nodup)
    (hnodel : ∀ a ∈ as, a.op ≠ ActionOp.delete)
    (hupd : ∀ a ∈ as, a.op = ActionOp.update →
      ∀ k ∈ keysOfAction a, (lookupA snap.tokens k).isSome) :
    rollbackToLatestSavepoint
      { engine := e, savepoints := pre ++ [{ seq := sq, node := .rt { snapshot := snap, actions := as } }] }
      = .ok { engine := specRollbackRt snap as e, savepoints := pre } := by
  have hl : (pre ++ [({ seq := sq, node := .rt { snapshot := snap, actions := as } } : Savepoint)]).getLast?
      = some { seq := sq, node := .rt { snapshot := snap, actions := as } } :=
    List.getLast?_concat _
  have hdl : (pre ++ [({ seq := sq, node := .rt { snapshot := snap, actions := as } } : Savepoint)]).dropLast
      = pre := List.dropLast_concat
  have hgrp : rollbackRtGroup { snapshot := snap, actions := as } e
      = .ok (specRollbackRt snap as e) := by
    by_cases hnil : as = []
    · subst hnil
      simp [rollbackRtGroup, specRollbackRt, triplesOfActions]
    · obtain ⟨ks2, ops, heq, happ⟩ :=
        rtTriples_spec snap (triplesOfActions as) [] [] (by rw [triplesOfActions_keys]; exact hnd)
          (by intro x _; simp)
          (by
            intro x hx
            obtain ⟨a, ha, _, hop, _⟩ := mem_triplesOfActions hx
            rw [← hop]
            exact hnodel a ha)
          (by
            intro x hx hop
            obtain ⟨a, ha, _, hopx, hk⟩ := mem_triplesOfActions hx
            exact hupd a ha (by rw [hopx, hop]) _ hk)
      simp only [rollbackRtGroup, if_neg hnil, rtRollbackActions_eq_triples, heq,
        List.nil_append]
      rw [happ e]
      rfl
  simp only [rollbackToLatestSavepoint, hl, hgrp, hdl]
  rfl

theorem C1_rollback_inverse_witness :
    rollbackToLatestSavepoint
      { engine := wEngine,
        savepoints := [{ seq := 1, node := .rt { snapshot := wEngine, actions :=
          [{ ttype := .domain, op := .update, data := .tokenFullKey [] [1] },
           { ttype := .domain, op := .add, data := .tokenFullKey [] [3] },
           { ttype := .asset, op := .put, data := .assetKey [4] }] } }] }
      = .ok { engine := specRollbackRt wEngine
                [{ ttype := .domain, op := .update, data := .tokenFullKey [] [1] },
                 { ttype := .domain, op := .add, data := .tokenFullKey [] [3] },
                 { ttype := .asset, op := .put, data := .assetKey [4] }] wEngine,
              savepoints := [] } :=
  C1_rollback_inverse wEngine [] 1 wEngine
    [{ ttype := .domain, op := .update, data := .tokenFullKey [] [1] },
     { ttype := .domain, op := .add, data := .tokenFullKey [] [3] },
     { ttype := .asset, op := .put, data := .assetKey [4] }]
    (by decide) (by decide) (by decide)

/-- C1 counterexample: a recorded `delete` action makes rollback fail
with an assertion (there is no `delete` case in the inverse switch),
even though the snapshot holds the old value the claim says is put
back. -/
theorem C1_rollback_inverse_cex :
    rollbackToLatestSavepoint
      { engine := { tokens := [([1, 2], [9])], assets := [] },
        savepoints := [{ seq := 1, node := .rt {
          snapshot := { tokens := [([1, 2], [9])], assets := [] },
          actions := [{ ttype := .domain, op := .delete, data := .tokenFullKey [1] [2] }] } }] }
      = .error .assertFail
    ∧ lookupA ({ tokens := [([1, 2], [9])], assets := [] } : Engine).tokens [1, 2]
      = some [9] := by decide

/-! ## C3: per-key dedup in rollback -/

theorem rtRollbackStep_keyset (snap : Snapshot) (tt : TokenType) (op : ActionOp)
    (st st2 : List Bytes × List BatchOp) (k : Bytes)
    (h : rtRollbackStep snap tt op st k = .ok st2) :
    (∀ k2 ∈ st.1, k2 ∈ st2.1) ∧ k ∈ st2.1 := by
  cases op with
  | add =>
    simp only [rtRollbackStep] at h
    by_cases hk : k ∈ st.1
    · rw [if_pos hk] at h; cases h
    · rw [if_neg hk] at h
      injection h with h2
      subst h2
      exact ⟨fun k2 hk2 => by simp [hk2], by simp⟩
  | update =>
    simp only [rtRollbackStep] at h
    by_cases hk : k ∈ st.1
    · rw [if_pos hk] at h
      injection h with h2
      subst h2
      exact ⟨fun k2 hk2 => hk2, hk⟩
    · rw [if_neg hk] at h
      cases hold : lookupA snap.tokens k with
      | none => rw [hold] at h; cases h
      | some old =>
        rw [hold] at h
        injection h with h2
        subst h2
        exact ⟨fun k2 hk2 => by simp [hk2], by simp⟩
  | put =>
    simp only [rtRollbackStep] at h
    by_cases hk : k ∈ st.1
    · rw [if_pos hk] at h
      injection h with h2
      subst h2
      exact ⟨fun k2 hk2 => hk2, hk⟩
    · rw [if_neg hk] at h
      cases tt <;> revert h <;>
        first
        | (cases hold : lookupA snap.assets k with
           | none =>
             intro h
             injection h with h2
             subst h2
             exact ⟨fun k2 hk2 => by simp [hk2], by simp⟩
           | some old =>
             intro h
             injection h with h2
             subst h2
             exact ⟨fun k2 hk2 => by simp [hk2], by simp⟩)
        | (cases hold : lookupA snap.tokens k with
           | none =>
             intro h
             injection h with h2
             subst h2
             exact ⟨fun k2 hk2 => by simp [hk2], by simp⟩
           | some old =>
             intro h
             injection h with h2
             subst h2
             exact ⟨fun k2 hk2 => by simp [hk2], by simp⟩)
  | delete => simp [rtRollbackStep] at h

theorem rtRollbackKeys_keyset (snap : Snapshot) (tt : TokenType) (op : ActionOp) :
    ∀ keys st st2, rtRollbackKeys snap tt op keys st = .ok st2 →
      (∀ k2 ∈ st.1, k2 ∈ st2.1) ∧ ∀ k ∈ keys, k ∈ st2.1 := by
  intro keys
  induction keys with
  | nil =>
    intro st st2 h
    injection h with h2
    subst h2
    exact ⟨fun _ hk => hk, by simp⟩
  | cons k rest ih =>
    intro st st2 h
    simp only [rtRollbackKeys] at h
    cases hs : rtRollbackStep snap tt op st k with
    | error e => rw [hs] at h; cases h
    | ok stm =>
      rw [hs] at h
      obtain ⟨hmono, hmem⟩ := rtRollbackStep_keyset snap tt op st stm k hs
      obtain ⟨hmono2, hmem2⟩ := ih stm st2 h
      refine ⟨fun k2 hk2 => hmono2 k2 (hmono k2 hk2), ?_⟩
      intro k2 hk2
      rcases List.mem_cons.1 hk2 with rfl | hk2
      · exact hmono2 k2 hmem
      · exact hmem2 k2 hk2

theorem rtRollbackActions_keyset (snap : Snapshot) :
    ∀ as st st2, rtRollbackActions snap as st = .ok st2 →
      (∀ k2 ∈ st.1, k2 ∈ st2.1) ∧ ∀ k ∈ keysOfActions as, k ∈ st2.1 := by
  intro as
  induction as with
  | nil =>
    intro st st2 h
    injection h with h2
    subst h2
    exact ⟨fun _ hk => hk, by simp [keysOfActions]⟩
  | cons a rest ih =>
    intro st st2 h
    simp only [rtRollbackActions] at h
    cases hs : rtRollbackAction snap a st with
    | error e => rw [hs] at h; cases h
    | ok stm =>
      rw [hs] at h
      obtain ⟨hmono, hmem⟩ := rtRollbackKeys_keyset snap a.ttype a.op (keysOfAction a) st stm hs
      obtain ⟨hmono2, hmem2⟩ := ih stm st2 h
      refine ⟨fun k2 hk2 => hmono2 k2 (hmono k2 hk2), ?_⟩
      intro k2 hk2
      simp only [keysOfActions, List.flatMap_cons, List.mem_append] at hk2
      rcases hk2 with hk2 | hk2
      · exact hmono2 k2 (hmem k2 hk2)
      · exact hmem2 k2 (by simpa [keysOfActions] using hk2)

theorem rtRollbackKeys_skip (snap : Snapshot) (tt : TokenType) (op : ActionOp)
    (hop : op = ActionOp.update ∨ op = ActionOp.put) :
    ∀ keys st, (∀ k ∈ keys, k ∈ st.1) → rtRollbackKeys snap tt op keys st = .ok st := by
  intro keys
  induction keys with
  | nil => intro st _; rfl
  | cons k rest ih =>
    intro st hmem
    have hk : k ∈ st.1 := hmem k (by simp)
    have hstep : rtRollbackStep snap tt op st k = .ok st := by
      rcases hop with rfl | rfl
      · simp [rtRollbackStep, hk]
      · simp [rtRollbackStep, hk]
    simp only [rtRollbackKeys, hstep]
    exact ih st (fun k2 hk2 => hmem k2 (by simp [hk2]))

theorem rtRollbackActions_append (snap : Snapshot) :
    ∀ xs ys st, rtRollbackActions snap (xs ++ ys) st =
      match rtRollbackActions snap xs st with
      | .error e => .error e
      | .ok st2 => rtRollbackActions snap ys st2 := by
  intro xs
  induction xs with
  | nil => intro ys st; rfl
  | cons a rest ih =>
    intro ys st
    simp only [List.cons_append, rtRollbackActions]
    cases rtRollbackAction snap a st with
    | error e => rfl
    | ok st2 => exact ih ys st2

/-- C3 (amended): within a single savepoint rollback deduplicates by
full key with the earliest recorded action winning: once a key has been
processed, any later `update` or `put` on it is skipped outright — so a
savepoint with such a redundant action rolls back identically to one
without it; a later `add` on an already-processed key is not skipped
but rejected by an assertion (the code assumes adds are unique). -/
theorem C3_rollback_dedup (e : Engine) (pre : List Savepoint) (sq : Int)
    (snap : Snapshot) (as1 as2 : List RtAction) (a : RtAction)
    (hop : a.op = ActionOp.update ∨ a.op = ActionOp.put)
    (hsub : ∀ k ∈ keysOfAction a, k ∈ keysOfActions as1) :
    rollbackToLatestSavepoint
      { engine := e, savepoints := pre ++
        [{ seq := sq, node := .rt { snapshot := snap, actions := as1 ++ a :: as2 } }] }
    = rollbackToLatestSavepoint
      { engine := e, savepoints := pre ++
        [{ seq := sq, node := .rt { snapshot := snap, actions := as1 ++ as2 } }] } := by
  have hl1 : (pre ++ [({ seq := sq, node := .rt { snapshot := snap, actions := as1 ++ a :: as2 } } : Savepoint)]).getLast?
      = some { seq := sq, node := .rt { snapshot := snap, actions := as1 ++ a :: as2 } } :=
    List.getLast?_concat _
  have hl2 : (pre ++ [({ seq := sq, node := .rt { snapshot := snap, actions := as1 ++ as2 } } : Savepoint)]).getLast?
      = some { seq := sq, node := .rt { snapshot := snap, actions := as1 ++ as2 } } :=
    List.getLast?_concat _
  have hgrp : rollbackRtGroup { snapshot := snap, actions := as1 ++ a :: as2 } e
      = rollbackRtGroup { snapshot := snap, actions := as1 ++ as2 } e := by
    by_cases hnil : as1 ++ as2 = []
    · have h1 : as1 = [] := by
        rcases List.append_eq_nil.1 hnil with ⟨h1, _⟩
        exact h1
      have h2 : as2 = [] := by
        rcases List.append_eq_nil.1 hnil with ⟨_, h2⟩
        exact h2
      subst h1; subst h2
      have hka : keysOfAction a = [] := by
        rcases hka : keysOfAction a with _ | ⟨k, rest⟩
        · rfl
        · exact absurd (hsub k (by rw [hka]; simp)) (by simp [keysOfActions])
      simp only [List.nil_append, List.append_nil, rollbackRtGroup]
      rw [if_neg (by simp)]
      simp [rtRollbackActions, rtRollbackAction, hka, rtRollbackKeys, applyBatch]
    · have hskip : rtRollbackActions snap (as1 ++ a :: as2) ([], [])
          = rtRollbackActions snap (as1 ++ as2) ([], []) := by
        rw [rtRollbackActions_append, rtRollbackActions_append]
        cases h1 : rtRollbackActions snap as1 ([], []) with
        | error err => rfl
        | ok stm =>
          obtain ⟨_, hmem⟩ := rtRollbackActions_keyset snap as1 ([], []) stm h1
          have hskipa : rtRollbackAction snap a stm = .ok stm :=
            rtRollbackKeys_skip snap a.ttype a.op hop (keysOfAction a) stm
              (fun k hk => hmem k (hsub k hk))
          simp only [rtRollbackActions, hskipa]
      simp only [rollbackRtGroup, if_neg hnil, if_neg (by simp : ¬(as1 ++ a :: as2 = []))]
      rw [hskip]
  simp only [rollbackToLatestSavepoint, hl1, hl2, hgrp, List.dropLast_concat]

theorem C3_rollback_dedup_witness :
    rollbackToLatestSavepoint
      { engine := wEngine, savepoints :=
        [{ seq := 1, node := .rt { snapshot := wEngine, actions :=
          [{ ttype := .domain, op := .update, data := .tokenFullKey [1] [] }] ++
          { ttype := .domain, op := .put, data := .tokenFullKey [1] [] } ::
          [{ ttype := .domain, op := .add, data := .tokenFullKey [9] [] }] } }] }
    = rollbackToLatestSavepoint
      { engine := wEngine, savepoints :=
        [{ seq := 1, node := .rt { snapshot := wEngine, actions :=
          [{ ttype := .domain, op := .update, data := .tokenFullKey [1] [] }] ++
          [{ ttype := .domain, op := .add, data := .tokenFullKey [9] [] }] } }] } :=
  C3_rollback_dedup wEngine [] 1 wEngine
    [{ ttype := .domain, op := .update, data := .tokenFullKey [1] [] }]
    [{ ttype := .domain, op := .add, data := .tokenFullKey [9] [] }]
    { ttype := .domain, op := .put, data := .tokenFullKey [1] [] }
    (by decide) (by decide)

/-- C3 counterexample: after an `update` on a key is processed, a later
`add` on the same key is not skipped — it trips the uniqueness
assertion and the rollback fails, whereas the same savepoint without
the later action rolls back successfully. -/
theorem C3_rollback_dedup_cex :
    rollbackToLatestSavepoint
      { engine := { tokens := [([1, 2], [5])], assets := [] },
        savepoints := [{ seq := 1, node := .rt {
          snapshot := { tokens := [([1, 2], [9])], assets := [] },
          actions := [{ ttype := .domain, op := .update, data := .tokenFullKey [1] [2] },
                      { ttype := .domain, op := .add, data := .tokenFullKey [1] [2] }] } }] }
      = .error .assertFail
    ∧ rollbackToLatestSavepoint
      { engine := { tokens := [([1, 2], [5])], assets := [] },
        savepoints := [{ seq := 1, node := .rt {
          snapshot := { tokens := [([1, 2], [9])], assets := [] },
          actions := [{ ttype := .domain, op := .update, data := .tokenFullKey [1] [2] }] } }] }
      = .ok { engine := { tokens := [([1, 2], [9])], assets := [] }, savepoints := [] } := by
  decide

/-! ## C6: materialized pre-images -/

theorem persistTriples_append (snap : Snapshot) :
    ∀ xs ys st, persistTriples snap (xs ++ ys) st =
      match persistTriples snap xs st with
      | .error e => .error e
      | .ok st2 => persistTriples snap ys st2 := by
  intro xs
  induction xs with
  | nil => intro ys st; rfl
  | cons x rest ih =>
    intro ys st
    obtain ⟨tt, op, k⟩ := x
    simp only [List.cons_append, persistTriples]
    cases persistValueStep snap tt op st.1 k with
    | error e => rfl
    | ok vp => exact ih ys _

theorem persistKeys_eq_triples (snap : Snapshot) (tt : TokenType) (op : ActionOp) :
    ∀ ks st, persistKeys snap tt op ks st =
      persistTriples snap (ks.map (fun k => (tt, op, k))) st := by
  intro ks
  induction ks with
  | nil => intro st; rfl
  | cons k rest ih =>
    intro st
    simp only [persistKeys, List.map_cons, persistTriples]
    cases persistValueStep snap tt op st.1 k with
    | error e => rfl
    | ok vp => exact ih _

theorem persistActions_eq_triples (snap : Snapshot) :
    ∀ as st, persistActions snap as st =
      persistTriples snap (triplesOfActions as) st := by
  intro as
  induction as with
  | nil => intro st; rfl
  | cons a rest ih =>
    intro st
    simp only [persistActions, persistAction, triplesOfActions, List.flatMap_cons,
      persistTriples_append, persistKeys_eq_triples]
    cases persistTriples snap ((keysOfAction a).map (fun k => (a.ttype, a.op, k))) st with
    | error e => rfl
    | ok st2 =>
      simpa [triplesOfActions] using ih st2

theorem specPersistActions_cons (snap : Snapshot) (seen : List Bytes) (tt : TokenType)
    (op : ActionOp) (k : Bytes) (rest : List (TokenType × ActionOp × Bytes)) :
    specPersistActions snap seen ((tt, op, k) :: rest) =
      PdAction.mk (actionOpIdx op) (tokenTypeIdx tt)
        (if op = ActionOp.delete ∨ k ∈ seen then k else [])
        (if k ∈ seen then []
         else
           match op with
           | ActionOp.add => []
           | ActionOp.update => (lookupA snap.tokens k).getD []
           | ActionOp.put =>
             match tt with
             | TokenType.asset => (lookupA snap.assets k).getD []
             | _ => (lookupA snap.tokens k).getD []
           | ActionOp.delete => [])
      :: specPersistActions snap (if op = ActionOp.delete ∨ k ∈ seen then seen else k :: seen)
           rest := rfl

theorem persistTriples_spec (snap : Snapshot) :
    ∀ (trips : List (TokenType × ActionOp × Bytes)) (seen : List Bytes)
      (acc : List PdAction) (st2 : List Bytes × List PdAction),
      persistTriples snap trips (seen, acc) = .ok st2 →
      st2.2 = acc ++ specPersistActions snap seen trips := by
  intro trips
  induction trips with
  | nil =>
    intro seen acc st2 h
    injection h with h2
    subst h2
    simp [specPersistActions]
  | cons x rest ih =>
    intro seen acc st2 h
    obtain ⟨tt, op, k⟩ := x
    simp only [persistTriples] at h
    cases op with
    | add =>
      simp only [persistValueStep] at h
      by_cases hk : k ∈ seen
      · rw [if_pos hk] at h
        exact absurd h (by simp)
      · rw [if_neg hk] at h
        rw [ih _ _ _ h, specPersistActions_cons]
        simp [hk]
    | update =>
      simp only [persistValueStep] at h
      by_cases hk : k ∈ seen
      · rw [if_pos hk] at h
        rw [ih _ _ _ h, specPersistActions_cons]
        simp [hk]
      · rw [if_neg hk] at h
        cases hold : lookupA snap.tokens k with
        | none =>
          rw [hold] at h
          exact absurd h (by simp)
        | some old =>
          rw [hold] at h
          rw [ih _ _ _ h, specPersistActions_cons]
          simp [hk, hold]
    | put =>
      simp only [persistValueStep] at h
      by_cases hk : k ∈ seen
      · rw [if_pos hk] at h
        rw [ih _ _ _ h, specPersistActions_cons]
        simp [hk]
      · rw [if_neg hk] at h
        cases tt <;>
          (rw [ih _ _ _ h, specPersistActions_cons]; simp [hk])
    | delete =>
      simp only [persistValueStep] at h
      rw [ih _ _ _ h, specPersistActions_cons]
      simp

/-- C6 (amended): when a runtime savepoint is materialized to persistent
form, every expanded key produces one emplaced persistent action
`(op, type, key, value)`; the stored value is the pre-image read from
that savepoint's snapshot for the first action on each key — empty for
`add`, the snapshot's old value for `update`, the old value or empty
for `put` depending on presence (asset puts read the Assets family).
The emplaced key field, however, is the moved-from empty string for
every first-occurrence `add`/`update`/`put` (the closure runs
`key_set.emplace(std::move(key))` on `pdact.key` before the action is
emplaced); only a later action on an already-processed key — emplaced
with an empty value — and a `delete` action — empty value, key not
marked processed — keep the real key bytes. -/
theorem C6_persist_preimages (sp : Savepoint) (snap : Snapshot) (as : List RtAction)
    (g : PdGroup) (hnode : sp.node = .rt { snapshot := snap, actions := as })
    (hok : persistSavepoint sp = .ok g) :
    g.seq = sp.seq ∧ g.actions = specPersistActions snap [] (triplesOfActions as) := by
  rw [persistSavepoint, hnode] at hok
  simp only [persistRtActions, persistActions_eq_triples] at hok
  cases hp : persistTriples snap (triplesOfActions as) ([], []) with
  | error e => rw [hp] at hok; cases hok
  | ok st2 =>
    rw [hp] at hok
    injection hok with h2
    subst h2
    have := persistTriples_spec snap (triplesOfActions as) [] [] st2 hp
    simp only [List.nil_append] at this
    exact ⟨rfl, this⟩

theorem C6_persist_preimages_witness :
    ({ seq := 7, actions := specPersistActions wEngine [] (triplesOfActions
        [{ ttype := .domain, op := .update, data := .tokenFullKey [1] [] },
         { ttype := .domain, op := .put, data := .tokenFullKey [1] [] },
         { ttype := .domain, op := .add, data := .tokenFullKey [5] [] }]) } : PdGroup).seq
      = (7 : Int)
    ∧ ({ seq := 7, actions := specPersistActions wEngine [] (triplesOfActions
        [{ ttype := .domain, op := .update, data := .tokenFullKey [1] [] },
         { ttype := .domain, op := .put, data := .tokenFullKey [1] [] },
         { ttype := .domain, op := .add, data := .tokenFullKey [5] [] }]) } : PdGroup).actions
      = specPersistActions wEngine [] (triplesOfActions
        [{ ttype := .domain, op := .update, data := .tokenFullKey [1] [] },
         { ttype := .domain, op := .put, data := .tokenFullKey [1] [] },
         { ttype := .domain, op := .add, data := .tokenFullKey [5] [] }]) :=
  C6_persist_preimages
    { seq := 7, node := .rt { snapshot := wEngine, actions :=
        [{ ttype := .domain, op := .update, data := .tokenFullKey [1] [] },
         { ttype := .domain, op := .put, data := .tokenFullKey [1] [] },
         { ttype := .domain, op := .add, data := .tokenFullKey [5] [] }] } }
    wEngine
    [{ ttype := .domain, op := .update, data := .tokenFullKey [1] [] },
     { ttype := .domain, op := .put, data := .tokenFullKey [1] [] },
     { ttype := .domain, op := .add, data := .tokenFullKey [5] [] }]
    _ rfl (by decide)

/-- C6 counterexample: the first-occurrence `update` is emplaced with a
moved-from empty key (the real key survives only in `key_set`), a
duplicate `update` on the already-processed key keeps its key but
carries an empty stored value (not the snapshot pre-image), and a
`delete` action is materialized with an empty value even though the
snapshot holds one. -/
theorem C6_persist_preimages_cex :
    persistSavepoint
      { seq := 1, node := .rt {
          snapshot := { tokens := [([1], [9]), ([2], [7])], assets := [] },
          actions := [{ ttype := .domain, op := .update, data := .tokenFullKey [] [1] },
                      { ttype := .domain, op := .update, data := .tokenFullKey [] [1] },
                      { ttype := .domain, op := .delete, data := .tokenFullKey [] [2] }] } }
      = .ok { seq := 1, actions :=
          [{ op := 1, ptype := 1, key := [], value := [9] },
           { op := 1, ptype := 1, key := [1], value := [] },
           { op := 3, ptype := 1, key := [2], value := [] }] }
    ∧ lookupA ({ tokens := [([1], [9]), ([2], [7])], assets := [] } : Engine).tokens [2]
      = some [7] := by decide

/-! ## C2: serializer round trip — resolution lemmas -/

theorem resolveType_fix (env : AbiEnv) :
    ∀ f t r, resolveType env f t = some r → lookupA env.typedefs r = none := by
  intro f
  induction f with
  | zero => intro t r h; cases h
  | succ g ih =>
    intro t r h
    simp only [resolveType] at h
    cases hl : lookupA env.typedefs t with
    | some u =>
      rw [hl] at h
      exact ih u r h
    | none =>
      rw [hl] at h
      injection h with h2
      subst h2
      exact hl

theorem resolveType_agree (env : AbiEnv) :
    ∀ f1 f2 t r1 r2, resolveType env f1 t = some r1 → resolveType env f2 t = some r2 →
      r1 = r2 := by
  intro f1
  induction f1 with
  | zero => intro f2 t r1 r2 h; cases h
  | succ g ih =>
    intro f2 t r1 r2 h1 h2
    cases f2 with
    | zero => cases h2
    | succ g2 =>
      simp only [resolveType] at h1 h2
      cases hl : lookupA env.typedefs t with
      | some u =>
        rw [hl] at h1 h2
        exact ih g2 u r1 r2 h1 h2
      | none =>
        rw [hl] at h1 h2
        injection h1 with h1
        injection h2 with h2
        rw [← h1, ← h2]

theorem resolveType_self (env : AbiEnv) (f : Nat) (t r : String)
    (h : resolveType env f t = some r) : resolveType env f r = some r := by
  cases f with
  | zero => cases h
  | succ g => simp [resolveType, resolveType_fix env (g + 1) t r h]

theorem lookupA_mem {κ α : Type} [DecidableEq κ] :
    ∀ (l : List (κ × α)) (k : κ) (v : α), lookupA l k = some v → (k, v) ∈ l := by
  intro l
  induction l with
  | nil => intro k v h; cases h
  | cons p rest ih =>
    intro k v h
    obtain ⟨k2, v2⟩ := p
    simp only [lookupA] at h
    by_cases he : k2 = k
    · rw [if_pos he] at h
      injection h with h2
      subst h2; subst he
      simp
    · rw [if_neg he] at h
      exact List.mem_cons_of_mem _ (ih k v h)

theorem nodup_lookupA {α : Type} :
    ∀ (l : List (String × α)), (l.map Prod.fst).Nodup →
      ∀ p ∈ l, lookupA l p.1 = some p.2 := by
  intro l
  induction l with
  | nil => intro _ p hp; cases hp
  | cons q rest ih =>
    intro hnd p hp
    obtain ⟨k2, v2⟩ := q
    simp only [List.map_cons, List.nodup_cons] at hnd
    rcases List.mem_cons.1 hp with rfl | hp
    · simp [lookupA]
    · have hne : k2 ≠ p.1 := by
        intro he
        exact hnd.1 (by rw [he]; exact List.mem_map_of_mem _ hp)
      simp only [lookupA, if_neg hne]
      exact ih hnd.2 p hp

/-! ## C2: built-in decorator lemmas -/

theorem decCount_encListM (c : BuiltinCodec) (hc : GoodCodec c) :
    ∀ (vs : List Value) (parts : List Bytes) (rest : Bytes),
      encListM c.enc vs = some parts →
      decCount c.dec vs.length (parts.flatten ++ rest) = some (vs, rest) := by
  intro vs
  induction vs with
  | nil =>
    intro parts rest h
    injection h with h2
    subst h2
    simp [decCount]
  | cons v vs ih =>
    intro parts rest h
    simp only [encListM] at h
    cases he : c.enc v with
    | none => rw [he] at h; cases h
    | some b =>
      rw [he] at h
      cases hrest : encListM c.enc vs with
      | none => rw [hrest] at h; cases h
      | some bs =>
        rw [hrest] at h
        injection h with h2
        subst h2
        simp only [List.length_cons, List.flatten_cons, List.append_assoc, decCount,
          hc v b _ he]
        rw [ih bs rest hrest]

theorem encListM_total (c : BuiltinCodec) :
    ∀ vs : List Value, (∀ x ∈ vs, (c.enc x).isSome) →
      ∃ parts, encListM c.enc vs = some parts := by
  intro vs
  induction vs with
  | nil => intro _; exact ⟨[], rfl⟩
  | cons v vs ih =>
    intro h
    obtain ⟨b, hb⟩ := Option.isSome_iff_exists.1 (h v (by simp))
    obtain ⟨parts, hp⟩ := ih (fun x hx => h x (by simp [hx]))
    exact ⟨b :: parts, by simp [encListM, hb, hp]⟩

theorem decVec_encVec (c : BuiltinCodec) (hc : GoodCodec c) (v : Value) (out : Bytes)
    (h : encVec c v = some out) (rest : Bytes) :
    decVec c (out ++ rest) = some (v, rest) := by
  cases v with
  | varr vs =>
    simp only [encVec] at h
    cases hl : encListM c.enc vs with
    | none => rw [hl] at h; cases h
    | some parts =>
      rw [hl] at h
      injection h with h2
      subst h2
      simp only [decVec, List.append_assoc, unpack_packVarint,
        decCount_encListM c hc vs parts rest hl]
  | vnull => cases h
  | vobj _ => cases h
  | vnum _ => cases h
  | vbytes _ => cases h

theorem decOpt_encOpt (c : BuiltinCodec) (hc : GoodCodec c) (v : Value) (out : Bytes)
    (h : encOpt c v = some out) (rest : Bytes) :
    decOpt c (out ++ rest) = some (v, rest) := by
  cases v with
  | vnull =>
    simp only [encOpt] at h
    injection h with h2
    subst h2
    simp [decOpt]
  | vobj fs =>
    simp only [encOpt] at h
    cases he : c.enc (Value.vobj fs) with
    | none => rw [he] at h; cases h
    | some b =>
      rw [he] at h
      injection h with h2
      subst h2
      simpa [decOpt] using hc _ b rest he
  | varr vs =>
    simp only [encOpt] at h
    cases he : c.enc (Value.varr vs) with
    | none => rw [he] at h; cases h
    | some b =>
      rw [he] at h
      injection h with h2
      subst h2
      simpa [decOpt] using hc _ b rest he
  | vnum n =>
    simp only [encOpt] at h
    cases he : c.enc (Value.vnum n) with
    | none => rw [he] at h; cases h
    | some b =>
      rw [he] at h
      injection h with h2
      subst h2
      simpa [decOpt] using hc _ b rest he
  | vbytes bs =>
    simp only [encOpt] at h
    cases he : c.enc (Value.vbytes bs) with
    | none => rw [he] at h; cases h
    | some b =>
      rw [he] at h
      injection h with h2
      subst h2
      simpa [decOpt] using hc _ b rest he

/-! ## C2: dispatch and bridging lemmas -/

theorem b2v_resolveInv (env : AbiEnv) (g : Nat) (t rt : String)
    (h : resolveType env g t = some rt) (bs : Bytes) :
    b2v env (g + 1) t bs = b2v env (g + 1) rt bs := by
  have h2 : resolveType env g rt = some rt := resolveType_self env g t rt h
  simp [b2v, b2vAux, h, h2]

theorem v2b_struct_eq (env : AbiEnv) (f : Nat) (s rs : String) (v : Value)
    (hres : resolveType env f s = some rs)
    (hb : lookupA env.builtins (fundamentalType rs) = none)
    (harr : arrQ rs = false) :
    v2b env (f + 1) s v = v2bObj env (f + 1) rs v := by
  simp [v2b, v2bObj, v2bAux, hres, hb, harr]

theorem v2bObj_resolveInv (env : AbiEnv) (f : Nat) (s rs : String) (v : Value)
    (hres : resolveType env f s = some rs) :
    v2bObj env (f + 1) s v = v2bObj env (f + 1) rs v := by
  have h2 : resolveType env f rs = some rs := resolveType_self env f s rs hres
  simp [v2bObj, v2bAux, hres, h2]

theorem admFlat_v2b_eq (env : AbiEnv) (f : Nat) (s : String)
    (flds : List (String × Value)) (hflat : AdmFlat env f s flds) (v : Value) :
    v2b env f s v = v2bObj env f s v := by
  cases hflat with
  | noBase g _ rs st oflds hres hb harr hopt hst hbase hflds =>
    rw [v2b_struct_eq env g s rs v hres (by rw [fundamentalType_id rs harr hopt]; exact hb)
      harr]
    rw [← v2bObj_resolveInv env g s rs v hres]
  | withBase g _ rs st rb bflds oflds hres hb harr hopt hst hbase hrb hbflds hflds =>
    rw [v2b_struct_eq env g s rs v hres (by rw [fundamentalType_id rs harr hopt]; exact hb)
      harr]
    rw [← v2bObj_resolveInv env g s rs v hres]

theorem adm_resolve (env : AbiEnv) (f : Nat) (t : String) (v : Value)
    (h : Adm env f t v) :
    ∃ g rt0, f = g + 1 ∧ resolveType env g t = some rt0 := by
  cases h <;> exact ⟨_, _, rfl, by assumption⟩

theorem fieldsRT (env : AbiEnv) (f : Nat)
    (IH : ∀ t v, Adm env f t v → ∃ bs, v2b env f t v = some bs ∧
      ∀ rest, b2v env f t (bs ++ rest) = some (v, rest)) :
    ∀ (flds : List (String × String)) (oflds : List (String × Value)),
      AdmFields env f flds oflds →
      ∀ vo : List (String × Value), (∀ p ∈ oflds, lookupA vo p.1 = some p.2) →
      ∃ bs, v2bFieldsGo (v2b env f) flds vo = some bs ∧
        ∀ rest, b2vFieldsGo (resolveType env f) (b2v env f) flds (bs ++ rest)
          = some (oflds, rest) := by
  intro flds
  induction flds with
  | nil =>
    intro oflds h vo hagree
    cases h
    exact ⟨[], rfl, fun rest => by simp [b2vFieldsGo]⟩
  | cons fld rest ih =>
    intro oflds h vo hagree
    obtain ⟨fn, ft⟩ := fld
    cases h with
    | cons _ _ _ rft fv _ orest hres hv hrest =>
      have hlk : lookupA vo fn = some fv := hagree (fn, fv) (by simp)
      obtain ⟨b1, he1, hd1⟩ := IH ft fv hv
      obtain ⟨bs2, he2, hd2⟩ := ih orest hrest vo (fun p hp => hagree p (by simp [hp]))
      refine ⟨b1 ++ bs2, ?_, ?_⟩
      · simp [v2bFieldsGo, hlk, he1, he2]
      · intro rest3
        obtain ⟨g, rt0, hf, hres0⟩ := adm_resolve env f ft fv hv
        subst hf
        have hagree2 : rt0 = rft := resolveType_agree env g (g + 1) ft rt0 rft hres0 hres
        subst hagree2
        have hdec : b2v env (g + 1) rt0 (b1 ++ (bs2 ++ rest3)) = some (fv, bs2 ++ rest3) := by
          rw [← b2v_resolveInv env g ft rt0 hres0]
          exact hd1 (bs2 ++ rest3)
        simp only [List.append_assoc, b2vFieldsGo, hres, hdec, hd2 rest3]

theorem listRT (env : AbiEnv) (f : Nat) (t : String)
    (IH : ∀ v, Adm env f t v → ∃ bs, v2b env f t v = some bs ∧
      ∀ rest, b2v env f t (bs ++ rest) = some (v, rest)) :
    ∀ vs : List Value, (∀ x ∈ vs, Adm env f t x) →
      ∃ parts, encListM (v2b env f t) vs = some parts ∧
        ∀ rest, decCount (b2v env f t) vs.length (parts.flatten ++ rest) = some (vs, rest) := by
  intro vs
  induction vs with
  | nil => intro _; exact ⟨[], rfl, fun rest => by simp [decCount]⟩
  | cons v vs ih =>
    intro h
    obtain ⟨b1, he1, hd1⟩ := IH v (h v (by simp))
    obtain ⟨parts, he2, hd2⟩ := ih (fun x hx => h x (by simp [hx]))
    refine ⟨b1 :: parts, by simp [encListM, he1, he2], ?_⟩
    intro rest
    simp only [List.length_cons, List.flatten_cons, List.append_assoc, decCount,
      hd1 (parts.flatten ++ rest)]
    rw [hd2 rest]


theorem b2v_structNB (env : AbiEnv) (f : Nat) (t rt : String) (bs : Bytes)
    (hres : resolveType env f t = some rt)
    (hb : lookupA env.builtins (fundamentalType rt) = none)
    (harr : arrQ rt = false) (hopt : optQ rt = false) :
    b2v env (f + 1) t bs =
      match b2vStruct env (f + 1) rt bs with
      | none => none
      | some (flds, r) => some (Value.vobj flds, r) := by
  simp only [b2v, b2vStruct, b2vAux, hres, hb, harr, hopt, Bool.false_eq_true, if_false]

theorem serRT (env : AbiEnv) (hg : GoodBuiltins env) : ∀ f : Nat,
    (∀ t v, Adm env f t v → ∃ bs, v2b env f t v = some bs ∧
      ∀ rest, b2v env f t (bs ++ rest) = some (v, rest))
    ∧ (∀ s flds, AdmFlat env f s flds →
        ∀ vo : List (String × Value), (∀ p ∈ flds, lookupA vo p.1 = some p.2) →
        ∃ bs, v2bObj env f s (Value.vobj vo) = some bs ∧
          ∀ rest, b2vStruct env f s (bs ++ rest) = some (flds, rest)) := by
  intro f
  induction f with
  | zero =>
    constructor
    · intro t v h
      cases h
    · intro s flds h vo _
      cases h
  | succ f ih =>
    have P1 := ih.1
    have ef : (v2bAux env f).1 = v2b env f := rfl
    have df1 : (b2vAux env f).1 = b2v env f := rfl
    have df2 : (b2vAux env f).2 = b2vStruct env f := rfl
    have P2succ : ∀ s flds, AdmFlat env (f + 1) s flds →
        ∀ vo : List (String × Value), (∀ p ∈ flds, lookupA vo p.1 = some p.2) →
        ∃ bs, v2bObj env (f + 1) s (Value.vobj vo) = some bs ∧
          ∀ rest, b2vStruct env (f + 1) s (bs ++ rest) = some (flds, rest) := by
      intro s flds hflat vo hagree
      cases hflat with
      | noBase _ _ rs st _ hres hb harr hopt hst hbase hflds =>
        obtain ⟨fb, hfe, hfd⟩ := fieldsRT env f P1 st.fields flds hflds vo hagree
        refine ⟨fb, ?_, ?_⟩
        · simp only [v2bObj, v2bAux, ef, hres, hst, hbase, if_pos, hfe]
          simp
        · intro rest
          simp only [b2vStruct, b2vAux, hres, hst, hbase]
          simp [df1, df2, hfd rest]
      | withBase _ _ rs st rb bflds oflds hres hb harr hopt hst hbase hrb hbflds hflds =>
        obtain ⟨bb, hbe, hbd⟩ := ih.2 rb bflds hbflds vo
          (fun p hp => hagree p (List.mem_append_left _ hp))
        obtain ⟨fb, hfe, hfd⟩ := fieldsRT env f P1 st.fields oflds hflds vo
          (fun p hp => hagree p (List.mem_append_right _ hp))
        have hbe2 : v2b env f rb (Value.vobj vo) = some bb := by
          rw [admFlat_v2b_eq env f rb bflds hbflds]
          exact hbe
        refine ⟨bb ++ fb, ?_, ?_⟩
        · simp only [v2bObj, v2bAux, ef, hres, hst, if_neg hbase, hrb, hbe2, hfe]
        · intro rest
          simp only [b2vStruct, b2vAux, hres, hst, if_neg hbase, hrb]
          simp [df1, df2, hbd (fb ++ rest), hfd rest]
    refine ⟨?_, P2succ⟩
    intro t v h
    cases h with
    | builtinPlain _ _ rt c _ out hres hb harr hopt henc =>
      have hgc : GoodCodec c := hg _ c (lookupA_mem _ _ _ hb)
      refine ⟨out, ?_, ?_⟩
      · simp only [v2b, v2bAux, hres, hb, harr, hopt, Bool.false_eq_true, if_false, henc]
      · intro rest
        simp only [b2v, b2vAux, hres, hb, harr, hopt, Bool.false_eq_true, if_false,
          hgc v out rest henc]
    | builtinArr _ _ rt c vs hres hb harr helts =>
      have hgc : GoodCodec c := hg _ c (lookupA_mem _ _ _ hb)
      obtain ⟨parts, hp⟩ := encListM_total c vs (fun x hx => (helts x hx).2)
      have henc : encVec c (Value.varr vs) = some (packVarint vs.length ++ parts.flatten) := by
        simp [encVec, hp]
      refine ⟨packVarint vs.length ++ parts.flatten, ?_, ?_⟩
      · simp only [v2b, v2bAux, hres, hb, harr, if_true, henc]
      · intro rest
        simp only [b2v, b2vAux, hres, hb, harr, if_true,
          decVec_encVec c hgc _ _ henc rest]
    | builtinOptNull _ _ rt c hres hb harr hopt =>
      refine ⟨[0], ?_, ?_⟩
      · simp only [v2b, v2bAux, hres, hb, harr, hopt, Bool.false_eq_true, if_false,
          if_true, encOpt]
      · intro rest
        simp only [b2v, b2vAux, hres, hb, harr, hopt, Bool.false_eq_true, if_false,
          if_true, decOpt, List.cons_append, List.nil_append, if_pos rfl]
    | builtinOptSome _ _ rt c _ out hres hb harr hopt hnn henc =>
      have hgc : GoodCodec c := hg _ c (lookupA_mem _ _ _ hb)
      have heo : encOpt c v = some (1 :: out) := by
        cases v with
        | vnull => exact absurd rfl hnn
        | vobj fs => simp [encOpt, henc]
        | varr vs => simp [encOpt, henc]
        | vnum n => simp [encOpt, henc]
        | vbytes bs => simp [encOpt, henc]
      refine ⟨1 :: out, ?_, ?_⟩
      · simp only [v2b, v2bAux, hres, hb, harr, hopt, Bool.false_eq_true, if_false,
          if_true, heo]
      · intro rest
        simp only [b2v, b2vAux, hres, hb, harr, hopt, Bool.false_eq_true, if_false,
          if_true, decOpt_encOpt c hgc v _ heo rest]
    | arrOfNonBuiltin _ _ rt vs hres hb harr helts =>
      obtain ⟨parts, he, hd⟩ := listRT env f (fundamentalType rt)
        (fun x hx => P1 (fundamentalType rt) x hx) vs helts
      refine ⟨packVarint vs.length ++ parts.flatten, ?_, ?_⟩
      · simp only [v2b, v2bAux, hres, hb, harr, if_true]
        simp [ef, he]
      · intro rest
        have hv : unpackVarint (packVarint vs.length ++ parts.flatten ++ rest)
            = some (vs.length, parts.flatten ++ rest) := by
          rw [List.append_assoc]
          exact unpack_packVarint _ _
        simp only [b2v, b2vAux, hres, hb, harr, if_true]
        simp only [df1]
        rw [hv]
        simp [hd rest]
    | structObj _ _ rt flds hres hb harr hopt hflat hnd =>
      obtain ⟨bs, he, hd⟩ := P2succ rt flds hflat flds (nodup_lookupA flds hnd)
      refine ⟨bs, ?_, ?_⟩
      · rw [v2b_struct_eq env f t rt (Value.vobj flds) hres hb harr]
        exact he
      · intro rest
        rw [b2v_structNB env f t rt (bs ++ rest) hres hb harr hopt, hd rest]

/-! ## C2: serializer round-trip -/

theorem u8Good : GoodCodec u8Codec := by
  intro v out rest henc
  cases v with
  | vnum n =>
    by_cases h : n < 256
    · simp [u8Codec, h] at henc
      subst henc
      simp [u8Codec]
    · simp [u8Codec, h] at henc
  | vnull => simp [u8Codec] at henc
  | vobj fs => simp [u8Codec] at henc
  | varr vs => simp [u8Codec] at henc
  | vbytes bs => simp [u8Codec] at henc

theorem cenvGood : GoodBuiltins cenv := by
  intro n c hc
  cases hc with
  | head => exact u8Good
  | tail _ h => cases h

theorem wActValAdm : Adm cenv 4 "S" wActVal := by
  refine Adm.structObj 3 "S" "S" wActFlds rfl rfl rfl rfl ?_ (by decide)
  show AdmFlat cenv 4 "S" wActFlds
  have h1 : Adm cenv 3 "uint8" (Value.vnum 7) :=
    Adm.builtinPlain 2 "uint8" "uint8" u8Codec (Value.vnum 7) [7] rfl rfl rfl rfl rfl
  have h2 : Adm cenv 3 "uint8[]" (Value.varr [Value.vnum 1, Value.vnum 3]) := by
    refine Adm.builtinArr 2 "uint8[]" "uint8[]" u8Codec [Value.vnum 1, Value.vnum 3]
      rfl rfl rfl ?_
    intro x hx
    rcases List.mem_cons.mp hx with rfl | hx
    · exact ⟨(fun h => nomatch h), rfl⟩
    rcases List.mem_cons.mp hx with rfl | hx
    · exact ⟨(fun h => nomatch h), rfl⟩
    cases hx
  have h3 : Adm cenv 3 "uint8?" Value.vnull :=
    Adm.builtinOptNull 2 "uint8?" "uint8?" u8Codec rfl rfl rfl rfl
  have hb : Adm cenv 2 "uint8" (Value.vnum 2) :=
    Adm.builtinPlain 1 "uint8" "uint8" u8Codec (Value.vnum 2) [2] rfl rfl rfl rfl rfl
  have hbflds : AdmFlat cenv 3 "B" [("b", Value.vnum 2)] := by
    refine AdmFlat.noBase 2 "B" "B" _ [("b", Value.vnum 2)] rfl rfl rfl rfl rfl rfl ?_
    exact AdmFields.cons 2 "b" "uint8" "uint8" (Value.vnum 2) [] [] rfl hb (AdmFields.nil 2)
  have hflds : AdmFields cenv 3
      [("x", "uint8"), ("ys", "uint8[]"), ("o", "uint8?")]
      [("x", Value.vnum 7), ("ys", Value.varr [Value.vnum 1, Value.vnum 3]),
       ("o", Value.vnull)] :=
    AdmFields.cons 3 "x" "uint8" "uint8" (Value.vnum 7) _ _ rfl h1
      (AdmFields.cons 3 "ys" "uint8[]" "uint8[]" (Value.varr [Value.vnum 1, Value.vnum 3]) _ _ rfl h2
        (AdmFields.cons 3 "o" "uint8?" "uint8?" Value.vnull _ _ rfl h3 (AdmFields.nil 3)))
  exact AdmFlat.withBase 3 "S" "S" _ "B" [("b", Value.vnum 2)] _
    rfl rfl rfl rfl rfl (by decide) rfl hbflds hflds

/-- **C2** (corrected).  For a registered action type `t` accepted by
`is_type`, with well-behaved built-in registrations, and a value `v`
admissible to `t` — where admissibility (`Adm`) restricts the optional
decorator to built-in fundamental types and takes objects in canonical
flattened field form — `variant_to_binary` succeeds and
`binary_to_variant` of the produced bytes returns `v` again, with
struct bases packed before fields, arrays as a varint length prefix
followed by the elements, and optionals as a flag byte followed by the
payload when set.  The claim's unrestricted reading fails: an
optional-decorated struct type decodes to a value that
`variant_to_binary` then rejects (see the counterexample). -/
theorem C2_serializer_roundtrip (env : AbiEnv) (f : Nat) (a t : String) (v : Value)
    (hg : GoodBuiltins env)
    (_hact : lookupA env.actions a = some t)
    (hit : isType env f t = some true)
    (hadm : Adm env f t v) :
    ∃ bs, variantToBinaryTop env f t v = some bs ∧
      binaryToVariantTop env f t bs = some v := by
  obtain ⟨bs, he, hd⟩ := (serRT env hg f).1 t v hadm
  refine ⟨bs, ?_, ?_⟩
  · simp [variantToBinaryTop, hit, he]
  · have h0 := hd []
    rw [List.append_nil] at h0
    simp [binaryToVariantTop, h0]

/-- Witness for C2: the object `wActVal` for the registered action type
`S` of `cenv` (base field, plain field, array field, unset optional)
encodes and decodes back to itself. -/
theorem C2_serializer_roundtrip_witness :
    ∃ bs, variantToBinaryTop cenv 4 "S" wActVal = some bs ∧
      binaryToVariantTop cenv 4 "S" bs = some wActVal :=
  C2_serializer_roundtrip cenv 4 "act" "S" wActVal cenvGood rfl rfl wActValAdm

/-- Counterexample to the claim's unrestricted reading: in
`cenvOptStruct` the registered action type `S` has a field of the
optional-over-struct type `Q?`; `binary_to_variant` decodes the bytes
`[1, 5]` to an object (flag byte 1, then struct `Q`), but
`variant_to_binary` on that very object fails, because the encoder
reaches the struct branch with the still-decorated name `Q?`, which
names no struct — so decode(encode(v)) = v fails for a value the
decoder itself produces. -/
theorem C2_serializer_roundtrip_cex :
    binaryToVariantTop cenvOptStruct 6 "S" [1, 5] = some wOptStructVal
    ∧ variantToBinaryTop cenvOptStruct 6 "S" wOptStructVal = none
    ∧ lookupA cenvOptStruct.actions "act" = some "S"
    ∧ isType cenvOptStruct 6 "S" = some true :=
  ⟨rfl, rfl, rfl, rfl⟩
